import Mathlib

/-!
Verification development for the CSV-to-QIF conversion engine
(`src/CSV-to-QIF.py`).  The Python source is shallowly embedded below:

* Python attribute bags (`self.__dict__`) become association lists
  `RecState := List (String × PyVal)`; an attribute that is missing or
  holds Python `None` is modelled as absent from the list.
* Python floats (results of `locale.atof`) are modelled as rationals `ℚ`.
* Python exceptions become `Except PyErr`; the per-pass `try/except`
  blocks of `readCsv` catch every `PyErr`.
* `datetime` values are modelled as integers: `datetime.strptime` is
  modelled as reading an integer numeral from the cell (the strptime
  format grammar is library behaviour, outside the embedded core) and
  `datetime.strftime` renders that integer.  Chronological comparison is
  integer comparison, which is all the source uses dates for.
* The boolean condition strings evaluated with Python `eval` against the
  record's attributes are modelled by the closed expression type `RCond`
  (the specification's §9 hardening note describes exactly this closed
  fragment: comparisons, conjunction/negation, field references).
-/

set_option maxRecDepth 4000

/-- Python exception kinds that the embedded code can raise.  The source's
bare `except:` clauses catch all of them alike. -/
inductive PyErr where
  | attrError
  | valueError
  | indexError
  | typeError
  | zeroDivisionError
  | keyError
  deriving DecidableEq, Repr

/-- A Python value stored in a record attribute: either a string taken from
the CSV row, or a number (`locale.atof` / `int` result, modelled as `ℚ`). -/
inductive PyVal where
  | str (s : String)
  | num (q : ℚ)
  deriving DecidableEq, Repr

/-- A CSV row, already split at the separator (the `csv.reader` splitting is
library behaviour). -/
abbrev Row := List String

/-- The attribute bag of a record object.  A key that is absent models a
Python attribute that is missing or `None`. -/
abbrev RecState := List (String × PyVal)

/-- Model of `getattr(self, a, None)`: the first binding of `a`, if any. -/
def getAttr (st : RecState) (a : String) : Option PyVal :=
  match st with
  | [] => none
  | (k, v) :: t => if k = a then some v else getAttr t a

/-- Model of `self.__dict__[a] = v`: replace the first binding of `a`, or
append a new one. -/
def setAttr (st : RecState) (a : String) (v : PyVal) : RecState :=
  match st with
  | [] => [(a, v)]
  | (k, w) :: t => if k = a then (k, v) :: t else (k, w) :: setAttr t a v

/-- Python truthiness of a stored value: empty string and zero are falsy. -/
def pyTruthy : PyVal → Bool
  | .str s => decide (s ≠ "")
  | .num q => decide (q ≠ 0)

/-- Membership of a character in a strip set. -/
def inCharSet (set : List Char) (c : Char) : Bool := set.contains c

/-- Model of Python `str.strip(chars)` on character lists: drop characters
of the set from both ends (an empty set strips nothing, as in Python). -/
def pyStripList (set : List Char) (cs : List Char) : List Char :=
  ((cs.dropWhile (inCharSet set)).reverse.dropWhile (inCharSet set)).reverse

/-- Model of Python `str.strip(chars)`. -/
def pyStrip (s : String) (chars : String) : String :=
  String.mk (pyStripList chars.data s.data)

/-- Accumulate decimal digits; fails on a non-digit character. -/
def digitsToNatAux : List Char → ℕ → Option ℕ
  | [], acc => some acc
  | c :: t, acc =>
      if c.isDigit then digitsToNatAux t (acc * 10 + (c.toNat - 48)) else none

/-- Parse a non-empty all-digit character list as a natural number. -/
def digitsToNat : List Char → Option ℕ
  | [] => none
  | c :: t => digitsToNatAux (c :: t) 0

/-- Model of Python `int(text)` on a string: optional sign followed by
decimal digits.  (Python additionally accepts surrounding whitespace and
underscore separators; those forms are outside the model.)  A failed parse
raises `ValueError`, as `int` does. -/
def pyIntParse (s : String) : Except PyErr ℤ :=
  match s.data with
  | '-' :: t =>
      match digitsToNat t with
      | some n => .ok (-(n : ℤ))
      | none => .error .valueError
  | '+' :: t =>
      match digitsToNat t with
      | some n => .ok (n : ℤ)
      | none => .error .valueError
  | l =>
      match digitsToNat l with
      | some n => .ok (n : ℤ)
      | none => .error .valueError

/-- All characters are decimal digits. -/
def allDigits (cs : List Char) : Bool := cs.all Char.isDigit

/-- Numeric value of a digit list (0 for the empty list). -/
def digitsVal (cs : List Char) : ℕ :=
  cs.foldl (fun a c => a * 10 + (c.toNat - 48)) 0

/-- Parse an unsigned decimal numeral with an optional fractional part
(`12`, `12.5`, `12.`, `.5`).  Used by the `locale.atof` model. -/
def parseUnsignedRat (cs : List Char) : Option ℚ :=
  let intPart := cs.takeWhile (fun c => c ≠ '.')
  let rest := cs.dropWhile (fun c => c ≠ '.')
  match rest with
  | [] => if cs ≠ [] ∧ allDigits cs then some ((digitsVal cs : ℚ)) else none
  | _ :: frac =>
      if (intPart ≠ [] ∨ frac ≠ []) ∧ allDigits intPart ∧ allDigits frac then
        some ((digitsVal intPart : ℚ) + (digitsVal frac : ℚ) / (10 ^ frac.length))
      else none

/-- Model of `locale.atof(text)` in the configured locale: optional sign and
a decimal numeral with `.` as decimal point.  (Exponent notation and
thousands separators are outside the model.)  A failed parse raises
`ValueError`, as `atof` does. -/
def pyAtof (s : String) : Except PyErr ℚ :=
  match s.data with
  | '-' :: t =>
      match parseUnsignedRat t with
      | some q => .ok (-q)
      | none => .error .valueError
  | '+' :: t =>
      match parseUnsignedRat t with
      | some q => .ok q
      | none => .error .valueError
  | l =>
      match parseUnsignedRat l with
      | some q => .ok q
      | none => .error .valueError

/-- Model of Python `str.isalpha` for one character, over the ASCII letters
(the Unicode alphabetic table is outside the model). -/
def pyIsAlphaChar (c : Char) : Bool :=
  (decide ('A' ≤ c) && decide (c ≤ 'Z')) || (decide ('a' ≤ c) && decide (c ≤ 'z'))

/-- Model of Python `str.isupper` for one character (ASCII range). -/
def pyIsUpperChar (c : Char) : Bool :=
  decide ('A' ≤ c) && decide (c ≤ 'Z')

/-- Model of Python `str.isalpha`: non-empty and every character alphabetic. -/
def pyIsAlphaStr (s : String) : Bool :=
  decide (s.data ≠ []) && s.data.all pyIsAlphaChar

/-- Model of the source's `is_float` helper.  NOTE a latent source bug: its
body reads `map.CurrencySymbol` where `map` is the Python *builtin* (the
function has no `map` parameter), so any non-alphabetic argument raises
`AttributeError` before `locale.atof` runs, and only `ValueError` is caught
by the function; alphabetic text returns `False` from the early
`text.isalpha()` test. -/
def is_float (text : String) : Except PyErr Bool :=
  if pyIsAlphaStr text then .ok false else .error .attrError

/-- Library model of `datetime.strptime(cell, fmt)`: a datetime is modelled
as the integer numeral written in the cell; the format argument is not
interpreted (the strptime grammar is library behaviour).  A cell that does
not carry an integer numeral raises `ValueError`, as strptime does on a
non-conforming cell — in particular an empty cell raises. -/
def pyStrptime (s : String) (_fmt : String) : Except PyErr ℤ :=
  match pyIntParse s with
  | .ok n => .ok n
  | .error _ => .error .valueError

/-- Library model of `datetime.strftime(d, fmt)`: renders the modelled
datetime as its numeral. -/
def pyStrftime (d : ℤ) (_fmt : String) : String := toString d

/-- Model of `datetime.strptime(value, fmt)` applied to a stored attribute:
strptime on a non-string argument raises `TypeError`. -/
def valueStrptime (v : PyVal) (fmt : String) : Except PyErr ℤ :=
  match v with
  | .str s => pyStrptime s fmt
  | .num _ => .error .typeError

/-- Rendering of a value into an output line (Python f-string
interpolation).  Numeral spelling is modelled by `Rat` rendering; no claim
depends on the spelling of numerals. -/
def pyValStr : PyVal → String
  | .str s => s
  | .num q => toString q

/-- Closed model of the boolean condition strings that the JSON rule tables
contain and the source evaluates with Python `eval` against the record's
attributes (cf. the specification's §9 hardening note, which prescribes
exactly such a closed grammar of comparisons and connectives over field
references).  An unknown field reference makes a comparison false. -/
inductive RCond where
  | tt
  | ff
  | eqStr (field : String) (v : String)
  | ltNum (field : String) (q : ℚ)
  | gtNum (field : String) (q : ℚ)
  | conj (a b : RCond)
  | neg (a : RCond)
  deriving DecidableEq, Repr

/-- Evaluate a rule condition against the record's current attributes. -/
def evalRCond (st : RecState) : RCond → Bool
  | .tt => true
  | .ff => false
  | .eqStr f v => decide (getAttr st f = some (.str v))
  | .ltNum f q =>
      match getAttr st f with
      | some (.num x) => decide (x < q)
      | _ => false
  | .gtNum f q =>
      match getAttr st f with
      | some (.num x) => decide (q < x)
      | _ => false
  | .conj a b => evalRCond st a && evalRCond st b
  | .neg a => !evalRCond st a

/-! ### The specification document and its resolution (class `ColumnMap`) -/

/-- A raw value of the JSON definition document, as far as the resolver's
letter-decoding is concerned: a string or a number. -/
inductive JVal where
  | s (v : String)
  | n (v : ℤ)
  deriving DecidableEq, Repr

/-- Model of the letter decoding in `ColumnMap.__init__` (source lines
47-54): a value that is a single alphabetic character becomes its offset
from `ord("A")` (uppercase) or `ord("a")` (otherwise); every other value is
stored unchanged. -/
def resolveColumnValue : JVal → JVal
  | .s v =>
      match v.data with
      | [c] =>
          if pyIsAlphaChar c then
            if pyIsUpperChar c then .n ((c.toNat : ℤ) - 65)
            else .n ((c.toNat : ℤ) - 97)
          else .s v
      | _ => .s v
  | .n v => .n v

/-- Model of the `for key,val in csvdeff.items()` loop of
`ColumnMap.__init__`: each value of the document is resolved. -/
def resolveDoc (doc : List (String × JVal)) : List (String × JVal) :=
  doc.map (fun p => (p.1, resolveColumnValue p.2))

/-- Whether a document value is a single alphabetic character (the guard of
the letter decoding). -/
def isSingleAlpha : JVal → Bool
  | .s v =>
      match v.data with
      | [c] => pyIsAlphaChar c
      | _ => false
  | .n _ => false

/-- Model of the resolved `ColumnMap` object: the JSON definition document
after letter decoding, plus the defaults set at the end of
`ColumnMap.__init__`.  Column bindings are modelled as `Option ℕ` (a
binding that the document does not mention is `none`; the model covers
documents whose bindings resolve to column indices).  `account` is
`Option PyVal` because `readCsv` reads `colmap.account` *without* a
default, so a document with no `account` key raises `AttributeError`
there.  `CsvTimeFormat` has no default in the source; `convert()` aborts
when it is missing, so the embedded core always receives one (the literal
default here is only a convenience for building instances).  The rule
tables model the nested JSON tables; a `Translations` entry models the
source's flat even-length `[cond, val, cond, val, …]` array pre-paired
(an odd-length array, which the source skips wholesale, has no model). -/
structure ColumnMap where
  account : Option PyVal := none
  accountType : PyVal := .str "Bank"
  taxRate : Option PyVal := none
  description : Option PyVal := none
  limit : Option PyVal := none
  StartLine : ℕ := 1
  Separator : String := ","
  QifTimeFormat : String := "%d/%m/%Y"
  CsvTimeFormat : String := "%m/%d/%y"
  CurrencySymbol : String := ""
  date : Option ℕ := none
  amountT : Option ℕ := none
  amountU : Option ℕ := none
  cleared : Option ℕ := none
  cleard : Option ℕ := none
  checkNum : Option ℕ := none
  payee : Option ℕ := none
  memo : Option ℕ := none
  address : Option ℕ := none
  category : Option ℕ := none
  categoryInSplit : Option ℕ := none
  memoInSplit : Option ℕ := none
  amountOfSplit : Option ℕ := none
  percentageOfSplit : Option ℕ := none
  reimbursable : Option ℕ := none
  balance : Option ℕ := none
  Credit : Option ℕ := none
  Debit : Option ℕ := none
  action : Option ℕ := none
  security : Option ℕ := none
  price : Option ℕ := none
  quantity : Option ℕ := none
  transfer_text : Option ℕ := none
  commission : Option ℕ := none
  amount_transferred : Option ℕ := none
  Fees : Option ℕ := none
  Multiplier : Option ℕ := none
  symbol : Option ℕ := none
  type : Option ℕ := none
  goal : Option ℕ := none
  ActionMap : Option (List (String × String)) := none
  SecurityTypeMap : Option (List (String × String)) := none
  CalculationRules : Option (List (String × List String)) := none
  Translations : Option (List (String × List (RCond × String))) := none
  InvertRules : Option (List (String × RCond)) := none

/-! ### Field helpers shared by the record constructors -/

/-- Model of `row[i]`: out-of-range indexing raises `IndexError`. -/
def cellAt (row : Row) (i : ℕ) : Except PyErr String :=
  match row.get? i with
  | some c => .ok c
  | none => .error .indexError

/-- The recurring extraction pattern
`row[map.f] if row and map and getattr(map,"f",None) is not None and
len(row[map.f]) > 0 else None` for a plain string field. -/
def extractStr (row : Row) (bnd : Option ℕ) : Except PyErr (Option PyVal) :=
  if row.isEmpty then .ok none else
  match bnd with
  | none => .ok none
  | some i => do
      let cell ← cellAt row i
      if cell = "" then .ok none else .ok (some (.str cell))

/-- The recurring extraction pattern
`locale.atof(row[map.f].strip(map.CurrencySymbol)) if … and len(row[map.f])
> 0 else None` for a numeric field (pass `cur := ""` for the call sites
that omit the `.strip`, since stripping the empty set is the identity). -/
def extractAtof (row : Row) (bnd : Option ℕ) (cur : String) :
    Except PyErr (Option PyVal) :=
  if row.isEmpty then .ok none else
  match bnd with
  | none => .ok none
  | some i => do
      let cell ← cellAt row i
      if cell = "" then .ok none
      else do
        let q ← pyAtof (pyStrip cell cur)
        .ok (some (.num q))

/-- Extraction of `self.date_in = datetime.strptime(row[map.date],
map.CsvTimeFormat) if row and map and getattr(map,"date",None) is not None
else None` — note there is no emptiness guard, so a bound empty date cell
raises. -/
def extractDateIn (row : Row) (cm : ColumnMap) : Except PyErr (Option ℤ) :=
  if row.isEmpty then .ok none else
  match cm.date with
  | none => .ok none
  | some i => do
      let cell ← cellAt row i
      let d ← pyStrptime cell cm.CsvTimeFormat
      .ok (some d)

/-- Assemble an attribute bag from the per-field extraction results, in
assignment order; a `none` result models an attribute set to Python
`None`. -/
def mkState (l : List (String × Option PyVal)) : RecState :=
  l.filterMap (fun p => p.2.map (fun v => (p.1, v)))

/-- Reading an attribute directly from the pre-assembly list: skip `None`
entries and foreign keys. -/
def lookupOpt : List (String × Option PyVal) → String → Option PyVal
  | [], _ => none
  | (k, v) :: t, a =>
      if k = a then
        match v with
        | some w => some w
        | none => lookupOpt t a
      else lookupOpt t a

/-! ### Rule evaluation (`caluculate_field`, translations, `invert_field`) -/

/-- Model of the source's `caluculate_field(recordClass, attr, rule)`.  The
division branch deserves a note: the source guards `if field2 == 0`, which
compares the operand's *name* (a string) with the integer `0` and is
therefore never true, so the guard is inert and a zero-valued second
operand raises `ZeroDivisionError` from the division itself. -/
def caluculate_field (st : RecState) (attr : String) (rule : List String) :
    Except PyErr RecState :=
  if rule.length < 3 then .ok st else
  match rule with
  | field1 :: math :: field2 :: _ =>
      match getAttr st field1, getAttr st field2 with
      | some v1, some v2 =>
          match v1, v2 with
          | .str _, _ => .ok st
          | .num _, .str _ => .ok st
          | .num q1, .num q2 =>
              if math = "+" then .ok (setAttr st attr (.num (q1 + q2)))
              else if math = "-" then .ok (setAttr st attr (.num (q1 - q2)))
              else if math = "*" then .ok (setAttr st attr (.num (q1 * q2)))
              else if math = "/" then
                if q2 = 0 then .error .zeroDivisionError
                else .ok (setAttr st attr (.num (q1 / q2)))
              else .ok st
      | some v1, none => .ok (setAttr st attr v1)
      | none, some v2 => .ok (setAttr st attr v2)
      | none, none => .ok st
  | _ => .ok st

/-- The `CalculationRules` loop of `BankRecord.__init__` (source lines
191-197): every rule is evaluated, unconditionally. -/
def applyCalcRulesList (rules : List (String × List String)) (st : RecState) :
    Except PyErr RecState :=
  match rules with
  | [] => .ok st
  | (attr, rule) :: t => do
      let st ← caluculate_field st attr rule
      applyCalcRulesList t st

/-- Bank-kind calculation stage: run the loop when the map has a
`CalculationRules` table. -/
def applyCalcRulesBank (cm : ColumnMap) (st : RecState) : Except PyErr RecState :=
  match cm.CalculationRules with
  | none => .ok st
  | some rs => applyCalcRulesList rs st

/-- The `CalculationRules` loop of `InvstRecord.__init__` (source lines
320-327): a rule is evaluated only when the *result* attribute already has
a non-`None` value (`if getattr(self, attr, None) is not None`). -/
def applyCalcRulesListInvst (rules : List (String × List String)) (st : RecState) :
    Except PyErr RecState :=
  match rules with
  | [] => .ok st
  | (attr, rule) :: t => do
      let st ← if (getAttr st attr).isSome then caluculate_field st attr rule else .ok st
      applyCalcRulesListInvst t st

/-- Investment-kind calculation stage. -/
def applyCalcRulesInvst (cm : ColumnMap) (st : RecState) : Except PyErr RecState :=
  match cm.CalculationRules with
  | none => .ok st
  | some rs => applyCalcRulesListInvst rs st

/-- The inner pair loop of the `Translations` stage (source lines 338-343):
each (condition, replacement) pair is evaluated in order against the
*current* attributes, and every pair whose condition holds assigns its
replacement — there is no break after a match. -/
def applyTransPairs (st : RecState) (attr : String) :
    List (RCond × String) → RecState
  | [] => st
  | (c, v) :: t =>
      let st := if evalRCond st c then setAttr st attr (.str v) else st
      applyTransPairs st attr t

/-- The outer `Translations` loop (source lines 329-343 and 415-429): only
attributes that belong to the record kind's field list are translated. -/
def applyTransList (fields : List String)
    (rules : List (String × List (RCond × String))) (st : RecState) : RecState :=
  match rules with
  | [] => st
  | (attr, ps) :: t =>
      let st := if attr ∈ fields then applyTransPairs st attr ps else st
      applyTransList fields t st

/-- Translation stage: run the loop when the map has a `Translations`
table. -/
def applyTranslations (fields : List String) (cm : ColumnMap) (st : RecState) :
    RecState :=
  match cm.Translations with
  | none => st
  | some rs => applyTransList fields rs st

/-- The sign toggle applied by `invert_field` to one value (source lines
536-547): a string has a leading `-` removed, a leading `+` replaced by
`-`, or a `-` prepended; a number is multiplied by `-1` (modelled as
negation, which is the same rational). -/
def invertValue : PyVal → PyVal
  | .str s =>
      match s.data with
      | c :: rest =>
          if c = '-' then .str (String.mk rest)
          else if c = '+' then .str (String.mk ('-' :: rest))
          else .str (String.mk ('-' :: c :: rest))
      | [] => .str (String.mk ['-'])
  | .num q => .num (-q)

/-- Model of the source's `invert_field(recordClass, attr)`: it reads
`recordClass.__dict__[attr]`, so a missing attribute would raise
`KeyError` (its callers guard against that). -/
def invert_field (st : RecState) (attr : String) : Except PyErr RecState :=
  match getAttr st attr with
  | some v => .ok (setAttr st attr (invertValue v))
  | none => .error .keyError

/-- The `InvertRules` loop (source lines 199-211 and 345-357): for each
rule whose attribute has a value, evaluate the condition against the
current attributes and invert on success. -/
def applyInvertList (rules : List (String × RCond)) (st : RecState) :
    Except PyErr RecState :=
  match rules with
  | [] => .ok st
  | (attr, cond) :: t => do
      let st ←
        if (getAttr st attr).isSome then
          if evalRCond st cond then invert_field st attr else .ok st
        else .ok st
      applyInvertList t st

/-- Inversion stage: run the loop when the map has an `InvertRules`
table. -/
def applyInvertRules (cm : ColumnMap) (st : RecState) : Except PyErr RecState :=
  match cm.InvertRules with
  | none => .ok st
  | some rs => applyInvertList rs st

/-! ### Bank records (`class BankRecord`) -/

/-- The fixed output field order of a Bank record. -/
def bankFields : List String :=
  ["date", "amountT", "amountU", "cleared", "checkNum", "payee", "memo",
   "address", "category", "categoryInSplit", "memoInSplit", "amountOfSplit",
   "percentageOfSplit", "reimbursable"]

/-- The QIF tags paired with `bankFields`. -/
def bankIds : List String :=
  ["D", "T", "U", "C", "N", "P", "M", "A", "L", "S", "E", "$", "%", "F"]

/-- Bank `cleared` extraction (source lines 128-133): only the first
character of the cell is kept. -/
def extractClearedBank (row : Row) (cm : ColumnMap) : Except PyErr (Option PyVal) :=
  if row.isEmpty then .ok none else
  match cm.cleared with
  | none => .ok none
  | some i => do
      let cell ← cellAt row i
      if cell = "" then .ok none
      else .ok (some (.str (String.mk (cell.data.take 1))))

/-- Field extraction of `BankRecord.__init__` (source lines 110-188), in
assignment order.  The produced list pairs each attribute name with its
extraction result; `date_in` is stored as the modelled datetime. -/
def bankExtract (row : Row) (cm : ColumnMap) :
    Except PyErr (List (String × Option PyVal)) := do
  let dIn ← extractDateIn row cm
  let dateV := dIn.map (fun d => PyVal.str (pyStrftime d cm.QifTimeFormat))
  let amountT ← extractAtof row cm.amountT cm.CurrencySymbol
  let amountU ← extractAtof row cm.amountU cm.CurrencySymbol
  let cleared ← extractClearedBank row cm
  let checkNum ← extractStr row cm.checkNum
  let payee ← extractStr row cm.payee
  let memo ← extractStr row cm.memo
  let address ← extractStr row cm.address
  let category ← extractStr row cm.category
  let categoryInSplit ← extractStr row cm.categoryInSplit
  let memoInSplit ← extractStr row cm.memoInSplit
  let amountOfSplit ← extractAtof row cm.amountOfSplit cm.CurrencySymbol
  let percentageOfSplit ← extractAtof row cm.percentageOfSplit cm.CurrencySymbol
  let reimbursable ← extractStr row cm.reimbursable
  let balance ← extractAtof row cm.balance cm.CurrencySymbol
  let credit ← extractAtof row cm.Credit cm.CurrencySymbol
  let debit ← extractAtof row cm.Debit cm.CurrencySymbol
  .ok [("date_in", dIn.map (fun d => PyVal.num (d : ℚ))), ("date", dateV),
       ("amountT", amountT), ("amountU", amountU), ("cleared", cleared),
       ("checkNum", checkNum), ("payee", payee), ("memo", memo),
       ("address", address), ("category", category),
       ("categoryInSplit", categoryInSplit), ("memoInSplit", memoInSplit),
       ("amountOfSplit", amountOfSplit),
       ("percentageOfSplit", percentageOfSplit),
       ("reimbursable", reimbursable), ("balance", balance),
       ("Credit", credit), ("Debit", debit)]

/-- Model of `BankRecord.__init__`: extraction, then the (ungated)
calculation stage, then the inversion stage.  A Bank record has no
translation stage. -/
def BankRecord_init (row : Row) (cm : ColumnMap) : Except PyErr RecState := do
  let l ← bankExtract row cm
  let st := mkState l
  let st ← applyCalcRulesBank cm st
  applyInvertRules cm st

/-! ### Investment records (`class InvstRecord`) -/

/-- The fixed output field order of an Investment record. -/
def invstFields : List String :=
  ["date", "action", "security", "price", "quantity", "cleared",
   "transfer_text", "memo", "commission", "category", "amountT", "amountU",
   "amount_transferred"]

/-- The QIF tags paired with `invstFields`. -/
def invstIds : List String :=
  ["D", "N", "Y", "I", "Q", "C", "P", "M", "O", "L", "T", "U", "$"]

/-- The `ActionMap` translation of the extracted action (source lines
260-269): a mapped value of `prompt` solicits a replacement from the
operator; the synchronous reply channel is modelled by `promptReply`. -/
def translateAction (cm : ColumnMap) (promptReply : String) :
    Option PyVal → Option PyVal
  | some (.str act) =>
      match cm.ActionMap with
      | none => some (.str act)
      | some m =>
          match m.lookup act with
          | none => some (.str act)
          | some v =>
              if v = "prompt" then some (.str promptReply) else some (.str v)
  | x => x

/-- Model of Python `abs()` on the modelled float. -/
def pyAbs (q : ℚ) : ℚ := if q < 0 then -q else q

/-- Investment `price` extraction (source lines 271-274): the absolute
value of the parsed number is stored. -/
def extractPrice (row : Row) (cm : ColumnMap) : Except PyErr (Option PyVal) :=
  if row.isEmpty then .ok none else
  match cm.price with
  | none => .ok none
  | some i => do
      let cell ← cellAt row i
      if cell = "" then .ok none
      else do
        let q ← pyAtof (pyStrip cell cm.CurrencySymbol)
        .ok (some (.num (pyAbs q)))

/-- Investment `quantity` extraction (source lines 275-279): the guard
`int(row[map.quantity]) > 0` applies Python `int` to the *raw* cell text,
so non-integer text (for example a fractional share count) raises
`ValueError` out of the constructor; an integer parse that is zero or
negative merely leaves the field absent; a positive parse stores the
`locale.atof` of the currency-stripped cell. -/
def extractQuantity (row : Row) (cm : ColumnMap) : Except PyErr (Option PyVal) :=
  if row.isEmpty then .ok none else
  match cm.quantity with
  | none => .ok none
  | some i => do
      let cell ← cellAt row i
      if cell = "" then .ok none
      else do
        let n ← pyIntParse cell
        if 0 < n then do
          let q ← pyAtof (pyStrip cell cm.CurrencySymbol)
          .ok (some (.num q))
        else .ok none

/-- Investment `cleared` extraction (source lines 280-283).  NOTE the
source bug this models: the guards test the binding named `cleared`, but
the value expression reads `row[map.cleard]` — a misspelling — so when the
guards pass and the document has no `cleard` key the attribute lookup
raises `AttributeError`. -/
def extractCleared (row : Row) (cm : ColumnMap) : Except PyErr (Option PyVal) :=
  if row.isEmpty then .ok none else
  match cm.cleared with
  | none => .ok none
  | some i => do
      let cell ← cellAt row i
      if cell = "" then .ok none
      else
        match cm.cleard with
        | none => .error .attrError
        | some j => do
            let c2 ← cellAt row j
            .ok (some (.str c2))

/-- Investment `commission` extraction (source lines 288-292): the guard
calls `is_float`, whose modelled `AttributeError` on non-alphabetic text
propagates (see `is_float`). -/
def extractCommission (row : Row) (cm : ColumnMap) : Except PyErr (Option PyVal) :=
  if row.isEmpty then .ok none else
  match cm.commission with
  | none => .ok none
  | some i => do
      let cell ← cellAt row i
      if cell = "" then .ok none
      else do
        let fl ← is_float cell
        if fl then do
          let q ← pyAtof (pyStrip cell cm.CurrencySymbol)
          .ok (some (.num q))
        else .ok none

/-- Investment `Multiplier` extraction (source lines 315-318): an integer
parse of the raw cell, with default `1` (not `None`). -/
def extractMultiplier (row : Row) (cm : ColumnMap) : Except PyErr PyVal :=
  if row.isEmpty then .ok (.num 1) else
  match cm.Multiplier with
  | none => .ok (.num 1)
  | some i => do
      let cell ← cellAt row i
      if cell = "" then .ok (.num 1)
      else do
        let n ← pyIntParse cell
        .ok (.num (n : ℚ))

/-- Field extraction of `InvstRecord.__init__` up to and including
`quantity` (source lines 240-279), in assignment order. -/
def invstExtractPre (row : Row) (cm : ColumnMap) (promptReply : String) :
    Except PyErr (List (String × Option PyVal)) := do
  let dIn ← extractDateIn row cm
  let dateV := dIn.map (fun d => PyVal.str (pyStrftime d cm.QifTimeFormat))
  let security ← extractStr row cm.security
  let memo ← extractStr row cm.memo
  let action0 ← extractStr row cm.action
  let action := translateAction cm promptReply action0
  let price ← extractPrice row cm
  let quantity ← extractQuantity row cm
  .ok [("date_in", dIn.map (fun d => PyVal.num (d : ℚ))), ("date", dateV),
       ("security", security), ("memo", memo), ("action", action),
       ("price", price), ("quantity", quantity)]

/-- Field extraction of `InvstRecord.__init__` after `cleared` (source
lines 284-318), in assignment order.  (`amount_transferred` is parsed
without the currency strip, exactly as in the source.) -/
def invstExtractPost (row : Row) (cm : ColumnMap) :
    Except PyErr (List (String × Option PyVal)) := do
  let transfer ← extractStr row cm.transfer_text
  let commission ← extractCommission row cm
  let category ← extractStr row cm.category
  let amountT ← extractAtof row cm.amountT cm.CurrencySymbol
  let amountU ← extractAtof row cm.amountU cm.CurrencySymbol
  let amountTr ← extractAtof row cm.amount_transferred ""
  let fees ← extractAtof row cm.Fees cm.CurrencySymbol
  let mult ← extractMultiplier row cm
  .ok [("transfer_text", transfer), ("commission", commission),
       ("category", category), ("amountT", amountT), ("amountU", amountU),
       ("amount_transferred", amountTr), ("Fees", fees),
       ("Multiplier", some mult)]

/-- Model of `InvstRecord.__init__`: extraction (with the `cleared` step in
its source position), then the gated calculation stage, the translation
stage, and the inversion stage. -/
def InvstRecord_init (row : Row) (cm : ColumnMap) (promptReply : String) :
    Except PyErr RecState := do
  let pre ← invstExtractPre row cm promptReply
  let cl ← extractCleared row cm
  let post ← invstExtractPost row cm
  let st := mkState (pre ++ [("cleared", cl)] ++ post)
  let st ← applyCalcRulesInvst cm st
  let st := applyTranslations invstFields cm st
  applyInvertRules cm st

/-! ### Security records (`class SecurityRecord`) -/

/-- The fixed output field order of a Security record. -/
def secFields : List String := ["security", "symbol", "type", "goal"]

/-- The QIF tags paired with `secFields`. -/
def secIds : List String := ["N", "S", "T", "G"]

/-- The `typeTest` extraction (source lines 386-395): the guard
`getattr(map,"type",None)` tests *truthiness*, so a binding to column 0 is
treated as absent; the extracted value is then passed through
`SecurityTypeMap` when one exists. -/
def extractTypeTest (row : Row) (cm : ColumnMap) : Except PyErr (Option String) :=
  if row.isEmpty then .ok none else
  match cm.type with
  | none => .ok none
  | some i =>
      if i = 0 then .ok none
      else do
        let cell ← cellAt row i
        if cell = "" then .ok none
        else
          match cm.SecurityTypeMap with
          | none => .ok (some cell)
          | some m =>
              match m.lookup cell with
              | none => .ok (some cell)
              | some v => .ok (some v)

/-- A truthiness-guarded string extraction that additionally requires the
already-extracted `symbol` to be present (source lines 404-413, used for
`security` and `goal`; a binding to column 0 is treated as absent). -/
def extractStrTruthyWithSymbol (row : Row) (bnd : Option ℕ)
    (symbol : Option PyVal) : Except PyErr (Option PyVal) :=
  if row.isEmpty then .ok none else
  match bnd with
  | none => .ok none
  | some i =>
      if i = 0 then .ok none
      else if symbol.isSome then do
        let cell ← cellAt row i
        if cell = "" then .ok none else .ok (some (.str cell))
      else .ok none

/-- Model of `SecurityRecord.__init__`: the record body is only filled out
when the (possibly mapped) type is `Stock` or `Option`; otherwise only the
`typeTest` attribute exists and in particular `type` is absent. -/
def SecurityRecord_init (row : Row) (cm : ColumnMap) : Except PyErr RecState := do
  let typeTest ← extractTypeTest row cm
  if typeTest = some "Stock" ∨ typeTest = some "Option" then do
    let symbol ← extractStr row cm.symbol
    let security ← extractStrTruthyWithSymbol row cm.security symbol
    let goal ← extractStrTruthyWithSymbol row cm.goal symbol
    let st := mkState [("typeTest", typeTest.map PyVal.str),
                       ("type", typeTest.map PyVal.str), ("symbol", symbol),
                       ("security", security), ("goal", goal)]
    .ok (applyTranslations secFields cm st)
  else
    .ok (mkState [("typeTest", typeTest.map PyVal.str)])

/-! ### Record formatting (`get_formatted_string`) -/

/-- One output line per present field, in the record kind's fixed order
(the loop `for attr, id_char in zip(self.fields, self.ids)`). -/
def formatLines (st : RecState) : List String → List String → String
  | f :: fs, i :: is => (match getAttr st f with
      | some v => i ++ pyValStr v ++ "\n"
      | none => "") ++ formatLines st fs is
  | _, _ => ""

/-- `BankRecord.get_formatted_string` (also used for the balance pass). -/
def bankFormat (st : RecState) : String := formatLines st bankFields bankIds ++ "^\n"

/-- `InvstRecord.get_formatted_string`. -/
def invstFormat (st : RecState) : String := formatLines st invstFields invstIds ++ "^\n"

/-- `SecurityRecord.get_formatted_string`: an all-absent record formats to
`None` rather than a bare terminator. -/
def secFormat (st : RecState) : Option String :=
  let r := formatLines st secFields secIds
  if r = "" then none else some (r ++ "^\n")

/-! ### Account records (`class AccountRecord`) -/

/-- The account summary record: the five document scalars plus the balance
accumulated by the orchestrator. -/
structure AccountRec where
  account : Option PyVal
  accountType : Option PyVal
  taxRate : Option PyVal
  description : Option PyVal
  limit : Option PyVal
  balance : Option PyVal
  deriving DecidableEq, Repr

/-- Model of `AccountRecord.__init__` (source lines 68-87): the scalars are
copied from the map; `taxRate` passes through `locale.atof`, which raises
`AttributeError` when the stored value is not a string (for example a
single-letter value that the resolver decoded to an integer). -/
def AccountRecord_init (cm : ColumnMap) : Except PyErr AccountRec := do
  let tr ←
    match cm.taxRate with
    | none => Except.ok (none : Option PyVal)
    | some (.str s) => do
        let q ← pyAtof s
        Except.ok (some (PyVal.num q))
    | some (.num _) => Except.error PyErr.attrError
  .ok { account := cm.account, accountType := some cm.accountType,
        taxRate := tr, description := cm.description, limit := cm.limit,
        balance := none }

/-- One optional line of the account record body. -/
def optLine (tag : String) (v : Option PyVal) : String :=
  match v with
  | some w => tag ++ pyValStr w ++ "\n"
  | none => ""

/-- `AccountRecord.get_formatted_string`: a `!Account` header when an
account name exists, then the present fields in fixed order, then the
terminator. -/
def accountFormat (ar : AccountRec) : String :=
  (if ar.account.isSome then "!Account\n" else "")
    ++ (optLine "N" ar.account ++ optLine "T" ar.accountType
        ++ optLine "R" ar.taxRate ++ optLine "D" ar.description
        ++ optLine "L" ar.limit ++ optLine "$" ar.balance ++ "^\n")

/-! ### The conversion orchestrator (`readCsv`) -/

/-- The strict `rec_time > latestDate` comparison of the balance pass;
`none` is the `datetime.min` initial value, which every parsed row date
exceeds (a formatted transaction date never equals `datetime.min`). -/
def laterThan (t : ℤ) : Option ℤ → Bool
  | none => true
  | some l => decide (l < t)

/-- The balance-watermark scan of the account pass (source lines 469-481):
construct a Bank record per row; when both `date` and `balance` are
present, re-parse the reformatted date with `QifTimeFormat` and take the
balance whenever the date strictly exceeds the latest one seen.  An
exception from a row is caught *outside* the loop, so the scan stops and
keeps the balance accumulated so far. -/
def accScan (cm : ColumnMap) : List Row → Option ℤ → Option PyVal → Option PyVal
  | [], _, bal => bal
  | r :: rs, latest, bal =>
      match BankRecord_init r cm with
      | .error _ => bal
      | .ok st =>
          match getAttr st "date", getAttr st "balance" with
          | some dv, some bv =>
              match valueStrptime dv cm.QifTimeFormat with
              | .error _ => bal
              | .ok t =>
                  if laterThan t latest then accScan cm rs (some t) (some bv)
                  else accScan cm rs latest bal
          | _, _ => accScan cm rs latest bal

/-- The balance collected by the account pass over the rows after the
`StartLine` skip. -/
def accountPassBalance (rows : List Row) (cm : ColumnMap) : Option PyVal :=
  accScan cm (rows.drop (cm.StartLine - 1)) none none

/-- The account section of `readCsv` (source lines 460-483): reading
`colmap.account` raises `AttributeError` when the document has no
`account` key; when the name is truthy an `AccountRecord` is built, the
balance scan runs only for a non-`Invst` account type with a bound balance
column, and the formatted record is written unconditionally. -/
def accountSection (rows : List Row) (cm : ColumnMap) : Except PyErr String :=
  match cm.account with
  | none => .error .attrError
  | some av =>
      if pyTruthy av then do
        let ar ← AccountRecord_init cm
        let ar :=
          if ar.accountType ≠ some (PyVal.str "Invst") ∧ cm.balance.isSome then
            { ar with balance := accountPassBalance rows cm }
          else ar
        .ok (accountFormat ar)
      else .ok ""

/-- The security-collection scan (source lines 486-505), threading the
`sec_list` of symbols already seen, the `StringIO` buffer and the
`sec_len` count.  An exception from a row is caught outside the loop and
the buffer is discarded (the `outf_.write` sits inside the `try`); the
impossible `write(None)` arm likewise discards.  The final buffer is
flushed only when `sec_len > 0`. -/
def secScanAux (cm : ColumnMap) :
    List Row → List (Option PyVal) → String → ℕ → String × List (Option PyVal)
  | [], seen, buf, len => (if 0 < len then buf else "", seen)
  | r :: rs, seen, buf, len =>
      match SecurityRecord_init r cm with
      | .error _ => ("", seen)
      | .ok st =>
          if (getAttr st "type").isSome then
            let sym := getAttr st "symbol"
            if sym ∈ seen then secScanAux cm rs seen buf len
            else
              match secFormat st with
              | none => ("", seen ++ [sym])
              | some body =>
                  let buf := if len = 0 then buf ++ "!Type:Security\n" else buf
                  secScanAux cm rs (seen ++ [sym]) (buf ++ body) (len + body.length)
          else secScanAux cm rs seen buf len

/-- The security section of `readCsv`: runs only for the `Invst` account
type, over the rows after the `StartLine` skip. -/
def securitySection (rows : List Row) (cm : ColumnMap) : String :=
  if cm.accountType = PyVal.str "Invst" then
    (secScanAux cm (rows.drop (cm.StartLine - 1)) [] "" 0).1
  else ""

/-- Record construction of the transaction pass (source lines 516-519). -/
def txRecordInit (row : Row) (cm : ColumnMap) (promptReply : String) :
    Except PyErr RecState :=
  if cm.accountType = PyVal.str "Invst" then InvstRecord_init row cm promptReply
  else BankRecord_init row cm

/-- Formatting of the transaction pass record, per record kind. -/
def txFormat (cm : ColumnMap) (st : RecState) : String :=
  if cm.accountType = PyVal.str "Invst" then invstFormat st else bankFormat st

/-- The `"!Type:" + colmap.accountType` header (source line 521): string
concatenation with a non-string account type raises `TypeError` (caught by
the pass). -/
def typeHeader (cm : ColumnMap) : Except PyErr String :=
  match cm.accountType with
  | .str s => .ok ("!Type:" ++ s ++ "\n")
  | .num _ => .error .typeError

/-- The transaction scan (source lines 512-526): the header goes into the
buffer before the first record body; any exception discards the whole
buffer (the flush sits inside the `try`). -/
def txScanAux (cm : ColumnMap) (promptReply : String) :
    List Row → String → ℕ → String
  | [], buf, _ => buf
  | r :: rs, buf, len =>
      match txRecordInit r cm promptReply with
      | .error _ => ""
      | .ok st =>
          if len = 0 then
            match typeHeader cm with
            | .error _ => ""
            | .ok hdr =>
                let body := txFormat cm st
                txScanAux cm promptReply rs (buf ++ hdr ++ body) (len + body.length)
          else
            let body := txFormat cm st
            txScanAux cm promptReply rs (buf ++ body) (len + body.length)

/-- The transaction section of `readCsv`, over the rows after the
`StartLine` skip. -/
def transactionSection (rows : List Row) (cm : ColumnMap) (promptReply : String) :
    String :=
  txScanAux cm promptReply (rows.drop (cm.StartLine - 1)) "" 0

/-- Model of `readCsv`: the account section (whose uncaught errors escape
the function), then the security section, then the transaction section,
concatenated on the output sink.  Every pass restarts from the start of
the rows because the source rewinds the input between passes
(`inf_.seek(0)`). -/
def readCsv (rows : List Row) (cm : ColumnMap) (promptReply : String) :
    Except PyErr String := do
  let acc ← accountSection rows cm
  .ok (acc ++ securitySection rows cm ++ transactionSection rows cm promptReply)

/-! ### Specification-side functions (stated from the claims' words, for
comparison with the source embedding) -/

/-- First occurrence of each element, in order, relative to an
already-seen set — the specification's first-seen de-duplication. -/
def specFirstOccurrencesFrom (seen : List (Option PyVal)) :
    List (Option PyVal) → List (Option PyVal)
  | [] => []
  | a :: l =>
      if a ∈ seen then specFirstOccurrencesFrom seen l
      else a :: specFirstOccurrencesFrom (seen ++ [a]) l

/-- The specification's first-seen de-duplication of a symbol stream. -/
def specFirstOccurrences (l : List (Option PyVal)) : List (Option PyVal) :=
  specFirstOccurrencesFrom [] l

/-- The stream of symbols of the qualifying rows (rows whose security
record has a `type`), in row order, duplicates included. -/
def qualSymbols (cm : ColumnMap) (rows : List Row) : List (Option PyVal) :=
  rows.filterMap (fun r =>
    match SecurityRecord_init r cm with
    | .ok st => if (getAttr st "type").isSome then some (getAttr st "symbol") else none
    | .error _ => none)

/-- Maximum of an integer list, `none` for the empty list. -/
def listMaxZ : List ℤ → Option ℤ
  | [] => none
  | d :: ds =>
      match listMaxZ ds with
      | none => some d
      | some m => some (max d m)

/-- The specification-side watermark: among the (date, balance) pairs, the
pair of the *first* row attaining the chronologically latest date. -/
def specWatermarkPair (ps : List (ℤ × PyVal)) : Option (ℤ × PyVal) :=
  match listMaxZ (ps.map (fun p => p.1)) with
  | none => none
  | some m => ps.find? (fun p => decide (p.1 = m))

/-- The balance selected by the specification-side watermark. -/
def specWatermarkFirst (ps : List (ℤ × PyVal)) : Option PyVal :=
  (specWatermarkPair ps).map (fun p => p.2)

/-- The (reparsed reformatted date, balance) pair a row contributes to the
balance pass, if any. -/
def balPairOf (cm : ColumnMap) (r : Row) : Option (ℤ × PyVal) :=
  match BankRecord_init r cm with
  | .error _ => none
  | .ok st =>
      match getAttr st "date", getAttr st "balance" with
      | some dv, some bv =>
          match valueStrptime dv cm.QifTimeFormat with
          | .ok t => some (t, bv)
          | .error _ => none
      | _, _ => none

/-- A row the balance pass can process without raising: its Bank record
builds, and when it contributes a (date, balance) pair the date string
re-parses. -/
def accRowOk (cm : ColumnMap) (r : Row) : Bool :=
  match BankRecord_init r cm with
  | .error _ => false
  | .ok st =>
      match getAttr st "date", getAttr st "balance" with
      | some dv, some _ =>
          match valueStrptime dv cm.QifTimeFormat with
          | .ok _ => true
          | .error _ => false
      | _, _ => true

/-- The specification-side case law for one calculated-field rule
`attr = (f1 op f2)` (stated from the amended claim's words): both operands
present and numeric compute the operation — division by a zero-valued
second operand raises — one present operand is copied through, and no
present operand leaves the state unchanged. -/
def specCalcCase (st : RecState) (attr f1 op f2 : String) :
    Except PyErr RecState :=
  match getAttr st f1, getAttr st f2 with
  | some v1, some v2 =>
      match v1, v2 with
      | .num q1, .num q2 =>
          if op = "+" then .ok (setAttr st attr (.num (q1 + q2)))
          else if op = "-" then .ok (setAttr st attr (.num (q1 - q2)))
          else if op = "*" then .ok (setAttr st attr (.num (q1 * q2)))
          else if op = "/" then
            if q2 = 0 then .error .zeroDivisionError
            else .ok (setAttr st attr (.num (q1 / q2)))
          else .ok st
      | _, _ => .ok st
  | some v1, none => .ok (setAttr st attr v1)
  | none, some v2 => .ok (setAttr st attr v2)
  | none, none => .ok st

/-! ### Helper lemmas: strings, attribute bags, state assembly -/

theorem str_data_append (a b : String) : (a ++ b).data = a.data ++ b.data := by
  cases a; cases b; rfl

theorem str_append_assoc (a b c : String) : a ++ b ++ c = a ++ (b ++ c) := by
  cases a; cases b; cases c
  show String.mk _ = String.mk _
  rw [List.append_assoc]

theorem str_append_empty (a : String) : a ++ "" = a := by
  cases a
  show String.mk _ = String.mk _
  rw [List.append_nil]

theorem str_empty_append (a : String) : "" ++ a = a := by
  cases a
  rfl

theorem str_eq_empty_iff (a : String) : a = "" ↔ a.data = [] := by
  constructor
  · intro h; rw [h]
  · intro h
    cases a
    simp only [String.data] at h
    rw [h]

theorem str_append_ne_empty_right (a b : String) (h : b ≠ "") : a ++ b ≠ "" := by
  intro hcontra
  apply h
  rw [str_eq_empty_iff] at hcontra ⊢
  rw [str_data_append] at hcontra
  exact (List.append_eq_nil.mp hcontra).2

theorem str_append_ne_empty_left (a b : String) (h : a ≠ "") : a ++ b ≠ "" := by
  intro hcontra
  apply h
  rw [str_eq_empty_iff] at hcontra ⊢
  rw [str_data_append] at hcontra
  exact (List.append_eq_nil.mp hcontra).1

/-- Concatenation of the formatted record bodies held in a section
buffer. -/
def concatBodies : List String → String
  | [] => ""
  | b :: t => b ++ concatBodies t

theorem concatBodies_snoc (l : List String) (b : String) :
    concatBodies (l ++ [b]) = concatBodies l ++ b := by
  induction l with
  | nil => simp [concatBodies, str_empty_append, str_append_empty]
  | cons a t ih => simp [concatBodies, ih, str_append_assoc]

theorem getAttr_setAttr (st : RecState) (a k : String) (v : PyVal) :
    getAttr (setAttr st a v) k = if a = k then some v else getAttr st k := by
  induction st with
  | nil =>
      simp only [setAttr, getAttr]
  | cons p t ih =>
      obtain ⟨k1, w⟩ := p
      by_cases h1 : k1 = a
      · subst h1
        by_cases h2 : k1 = k <;> simp [setAttr, getAttr, h2]
      · by_cases h2 : k1 = k
        · subst h2
          have h3 : ¬ (a = k1) := fun hh => h1 hh.symm
          simp [setAttr, getAttr, h1, h3]
        · simp [setAttr, getAttr, h1, h2, ih]

theorem getAttr_mkState (l : List (String × Option PyVal)) (k : String) :
    getAttr (mkState l) k = lookupOpt l k := by
  induction l with
  | nil => rfl
  | cons p t ih =>
      obtain ⟨k1, v⟩ := p
      simp only [mkState] at ih
      cases v with
      | none => simp [mkState, lookupOpt, ih, List.filterMap_cons]
      | some w => simp [mkState, getAttr, lookupOpt, ih, List.filterMap_cons]

theorem lookupOpt_append_left (l t : List (String × Option PyVal)) (k : String)
    (v : PyVal) (h : lookupOpt l k = some v) : lookupOpt (l ++ t) k = some v := by
  induction l with
  | nil => simp [lookupOpt] at h
  | cons p l2 ih =>
      obtain ⟨k1, w⟩ := p
      by_cases h1 : k1 = k
      · subst h1
        cases w with
        | none =>
            simp only [lookupOpt, if_pos rfl] at h
            simpa [lookupOpt] using ih h
        | some w0 =>
            simp [lookupOpt] at h
            simp [lookupOpt, h]
      · simp only [lookupOpt, if_neg h1] at h
        simpa [lookupOpt, h1] using ih h

theorem exceptBind_ok {α β : Type} (a : α) (f : α → Except PyErr β) :
    (Except.ok a >>= f) = f a := rfl

theorem getAttr_caluculate_field_ne (st st' : RecState) (attr k : String)
    (rule : List String) (hne : attr ≠ k)
    (h : caluculate_field st attr rule = .ok st') :
    getAttr st' k = getAttr st k := by
  unfold caluculate_field at h
  repeat' split at h
  all_goals
    first
      | (cases h; rfl)
      | (cases h; rw [getAttr_setAttr]; rw [if_neg hne])
      | cases h

theorem getAttr_applyTransPairs_ne (attr k : String) (hne : attr ≠ k) :
    ∀ (ps : List (RCond × String)) (st : RecState),
      getAttr (applyTransPairs st attr ps) k = getAttr st k := by
  intro ps
  induction ps with
  | nil => intro st; rfl
  | cons p t ih =>
      intro st
      obtain ⟨c, v⟩ := p
      simp only [applyTransPairs]
      rw [ih]
      by_cases h : evalRCond st c
      · simp [h, getAttr_setAttr, hne]
      · simp [h]

theorem getAttr_applyTransList_ne (fields : List String) (k : String)
    (rules : List (String × List (RCond × String)))
    (h : ∀ p ∈ rules, p.1 ≠ k) :
    ∀ st : RecState, getAttr (applyTransList fields rules st) k = getAttr st k := by
  induction rules with
  | nil => intro st; rfl
  | cons p t ih =>
      intro st
      obtain ⟨attr, ps⟩ := p
      have hattr : attr ≠ k := h (attr, ps) (List.mem_cons_self _ _)
      have ht : ∀ p ∈ t, p.1 ≠ k := fun p hp => h p (List.mem_cons_of_mem _ hp)
      simp only [applyTransList]
      rw [ih ht]
      by_cases hf : attr ∈ fields
      · simp [hf, getAttr_applyTransPairs_ne attr k hattr]
      · simp [hf]

theorem getAttr_applyCalcRulesListInvst_ne (k : String)
    (rules : List (String × List String)) (h : ∀ p ∈ rules, p.1 ≠ k) :
    ∀ (st st' : RecState), applyCalcRulesListInvst rules st = .ok st' →
      getAttr st' k = getAttr st k := by
  induction rules with
  | nil =>
      intro st st' hr
      cases hr
      rfl
  | cons p t ih =>
      intro st st' hr
      obtain ⟨attr, rule⟩ := p
      have hattr : attr ≠ k := h (attr, rule) (List.mem_cons_self _ _)
      have ht : ∀ p ∈ t, p.1 ≠ k := fun p hp => h p (List.mem_cons_of_mem _ hp)
      simp only [applyCalcRulesListInvst] at hr
      by_cases hs : (getAttr st attr).isSome
      · rw [if_pos hs] at hr
        cases hc : caluculate_field st attr rule with
        | error e => rw [hc] at hr; cases hr
        | ok mid =>
            rw [hc] at hr
            rw [exceptBind_ok] at hr
            rw [ih ht mid st' hr, getAttr_caluculate_field_ne st mid attr k rule hattr hc]
      · rw [if_neg hs] at hr
        exact ih ht st st' hr

theorem getAttr_invert_field_ne (st st' : RecState) (attr k : String)
    (hne : attr ≠ k) (h : invert_field st attr = .ok st') :
    getAttr st' k = getAttr st k := by
  unfold invert_field at h
  split at h
  · cases h
    rw [getAttr_setAttr, if_neg hne]
  · cases h

theorem getAttr_applyInvertList_ne (k : String)
    (rules : List (String × RCond)) (h : ∀ p ∈ rules, p.1 ≠ k) :
    ∀ (st st' : RecState), applyInvertList rules st = .ok st' →
      getAttr st' k = getAttr st k := by
  induction rules with
  | nil =>
      intro st st' hr
      cases hr
      rfl
  | cons p t ih =>
      intro st st' hr
      obtain ⟨attr, cond⟩ := p
      have hattr : attr ≠ k := h (attr, cond) (List.mem_cons_self _ _)
      have ht : ∀ p ∈ t, p.1 ≠ k := fun p hp => h p (List.mem_cons_of_mem _ hp)
      simp only [applyInvertList] at hr
      by_cases hs : (getAttr st attr).isSome
      · rw [if_pos hs] at hr
        by_cases hcond : evalRCond st cond
        · rw [if_pos hcond] at hr
          cases hi : invert_field st attr with
          | error e => rw [hi] at hr; cases hr
          | ok mid =>
              rw [hi] at hr
              rw [ih ht mid st' hr, getAttr_invert_field_ne st mid attr k hattr hi]
        · rw [if_neg hcond] at hr
          exact ih ht st st' hr
      · rw [if_neg hs] at hr
        exact ih ht st st' hr

/-! ### Claim C7 — sign inversion -/

/-- C7 (counterexample): the claim's corollary that any string value with a
leading `-` round-trips under double inversion fails on the code: inverting
`--5` twice yields `5`, because the second inversion consumes the next
leading marker instead of restoring the first. -/
theorem invert_double_minus_counterexample :
    ((invert_field [("amountT", PyVal.str "--5")] "amountT").bind
        (fun st => invert_field st "amountT")) =
      .ok [("amountT", PyVal.str "5")]
    ∧ PyVal.str "5" ≠ PyVal.str "--5" := by
  refine ⟨rfl, by decide⟩

/-- C7 (amended): inverting a present field toggles the value by
`invertValue`; a numeric value round-trips under double inversion; the
string marker rules hold as claimed (`-x → x`, `+x → -x`, unsigned `x →
-x`); and a string with a leading `-` round-trips under double inversion
provided the remainder does not itself begin with a sign marker. -/
theorem invert_field_marker_laws :
    (∀ (st : RecState) (attr : String) (v : PyVal), getAttr st attr = some v →
        invert_field st attr = .ok (setAttr st attr (invertValue v)))
  ∧ (∀ q : ℚ, invertValue (invertValue (.num q)) = .num q)
  ∧ (∀ cs : List Char, invertValue (.str (String.mk ('-' :: cs))) = .str (String.mk cs))
  ∧ (∀ cs : List Char, invertValue (.str (String.mk ('+' :: cs))) = .str (String.mk ('-' :: cs)))
  ∧ (∀ cs : List Char, cs.head? ≠ some '-' → cs.head? ≠ some '+' →
        invertValue (.str (String.mk cs)) = .str (String.mk ('-' :: cs)))
  ∧ (∀ cs : List Char, cs.head? ≠ some '-' → cs.head? ≠ some '+' →
        invertValue (invertValue (.str (String.mk ('-' :: cs)))) =
          .str (String.mk ('-' :: cs))) := by
  have hplain : ∀ cs : List Char, cs.head? ≠ some '-' → cs.head? ≠ some '+' →
      invertValue (.str (String.mk cs)) = .str (String.mk ('-' :: cs)) := by
    intro cs h1 h2
    cases cs with
    | nil => rfl
    | cons c t =>
        simp only [List.head?] at h1 h2
        have hc1 : ¬ (c = '-') := fun hh => h1 (by rw [hh])
        have hc2 : ¬ (c = '+') := fun hh => h2 (by rw [hh])
        simp [invertValue, hc1, hc2]
  refine ⟨?_, ?_, ?_, ?_, hplain, ?_⟩
  · intro st attr v h
    unfold invert_field
    rw [h]
  · intro q
    simp [invertValue]
  · intro cs
    simp [invertValue]
  · intro cs
    simp [invertValue]
  · intro cs h1 h2
    have step1 : invertValue (.str (String.mk ('-' :: cs))) = .str (String.mk cs) := by
      simp [invertValue]
    rw [step1, hplain cs h1 h2]

/-- C7 (witness): the amended laws applied at concrete inputs — a numeric
field inverted through `invert_field`, and the `-ab` marker round-trip. -/
theorem invert_field_marker_laws_witness :
    invert_field [("amountT", PyVal.num 5)] "amountT" =
      .ok (setAttr [("amountT", PyVal.num 5)] "amountT" (invertValue (PyVal.num 5)))
    ∧ invertValue (invertValue (PyVal.str (String.mk ('-' :: ['a', 'b'])))) =
        PyVal.str (String.mk ('-' :: ['a', 'b'])) := by
  have h := invert_field_marker_laws
  exact ⟨h.1 _ "amountT" _ rfl, h.2.2.2.2.2 ['a', 'b'] (by decide) (by decide)⟩

/-! ### Claim C8 — column-letter decoding -/

/-- C8: the resolver replaces a single alphabetic character by its 0-based
offset from `A` (uppercase) or `a` (otherwise), and every value that is not
a single alphabetic character passes through unchanged. -/
theorem column_letter_decoding :
    (∀ c : Char, pyIsAlphaChar c = true →
        resolveColumnValue (JVal.s (String.mk [c])) =
          JVal.n (if pyIsUpperChar c then (c.toNat : ℤ) - 65 else (c.toNat : ℤ) - 97))
  ∧ (∀ v : JVal, isSingleAlpha v = false → resolveColumnValue v = v) := by
  constructor
  · intro c h
    simp only [resolveColumnValue, h]
    by_cases hu : pyIsUpperChar c = true <;> simp [hu]
  · intro v h
    cases v with
    | n w => rfl
    | s str =>
        simp only [resolveColumnValue]
        split
        · rename_i c heq
          simp only [isSingleAlpha, heq] at h
          simp [h]
        · rfl

/-- C8 (witness): `C` decodes to index 2; `AB` passes through. -/
theorem column_letter_decoding_witness :
    resolveColumnValue (JVal.s (String.mk ['C'])) =
      JVal.n (if pyIsUpperChar 'C' then (('C'.toNat : ℤ) - 65) else (('C'.toNat : ℤ) - 97))
    ∧ resolveColumnValue (JVal.s "AB") = JVal.s "AB" := by
  have h := column_letter_decoding
  exact ⟨h.1 'C' (by decide), h.2 (JVal.s "AB") (by decide)⟩

/-! ### Claim C2 — ordered translation -/

/-- C2 (counterexample): with two pairs whose conditions both hold, the
claimed behaviour (apply the first match and stop) would leave `memo = A`;
the code applies every matching pair, so `memo = B`. -/
theorem translation_no_stop_counterexample :
    (InvstRecord_init ["X"]
        { accountType := .str "Invst", memo := some 0,
          Translations := some [("memo", [(RCond.tt, "A"), (RCond.tt, "B")])] }
        "").map (fun st => getAttr st "memo") = .ok (some (PyVal.str "B"))
    ∧ PyVal.str "B" ≠ PyVal.str "A" := by
  refine ⟨rfl, by decide⟩

/-- C2 (amended): the (condition, replacement) pairs are evaluated in
declaration order against the record's current — possibly already
translated — values, and every pair whose condition holds is applied;
evaluation does not stop at the first match.  Formally: the last pair of a
rule list is always evaluated, against the state produced by all earlier
pairs, and its replacement is final whenever its condition holds. -/
theorem translation_applies_all_matching_pairs
    (st : RecState) (attr : String) (ps : List (RCond × String)) (c : RCond)
    (v : String) :
    applyTransPairs st attr (ps ++ [(c, v)]) =
      (if evalRCond (applyTransPairs st attr ps) c
       then setAttr (applyTransPairs st attr ps) attr (.str v)
       else applyTransPairs st attr ps) := by
  induction ps generalizing st with
  | nil => simp [applyTransPairs]
  | cons p t ih =>
      obtain ⟨c1, v1⟩ := p
      simp only [List.cons_append, applyTransPairs]
      exact ih _

/-! ### Claim C3 — calculated-field fallback law -/

/-- C3 (counterexample): on an Investment record whose `amountT` is absent
while both operands (`price` and the always-present `Multiplier`) are
present, the claimed law demands `amountT = price * Multiplier = 5`; the
code's presence gate skips the rule and `amountT` stays absent. -/
theorem calcRules_invst_gate_counterexample :
    (InvstRecord_init ["5"]
        { accountType := .str "Invst", price := some 0,
          CalculationRules := some [("amountT", ["price", "*", "Multiplier"])] }
        "").map
      (fun st => (getAttr st "amountT", getAttr st "price", getAttr st "Multiplier"))
      = .ok (none, some (PyVal.num 5), some (PyVal.num 1))
    ∧ (none : Option PyVal) ≠ some (PyVal.num 5) := by
  refine ⟨rfl, by decide⟩

/-- C3 (amended): one evaluation of a calculated-field rule follows the
specification-side case law `specCalcCase` — both operands present and
non-string compute the operation exactly, except that division by a
zero-valued second operand raises; exactly one present operand is copied
through unchanged; no present operand leaves the result unchanged.  A Bank
record evaluates every rule; an Investment record evaluates a rule only
when the result attribute is already present. -/
theorem caluculate_field_fallback_law :
    (∀ (st : RecState) (attr f1 op f2 : String) (rest : List String),
        caluculate_field st attr (f1 :: op :: f2 :: rest) =
          specCalcCase st attr f1 op f2)
  ∧ (∀ (st : RecState) (attr : String) (rule : List String),
        applyCalcRulesList [(attr, rule)] st = caluculate_field st attr rule)
  ∧ (∀ (st : RecState) (attr : String) (rule : List String),
        applyCalcRulesListInvst [(attr, rule)] st =
          if (getAttr st attr).isSome then caluculate_field st attr rule
          else .ok st) := by
  refine ⟨?_, ?_, ?_⟩
  · intro st attr f1 op f2 rest
    have hlen : ¬ (f1 :: op :: f2 :: rest).length < 3 := by
      simp [List.length_cons]
    simp only [caluculate_field, specCalcCase, if_neg hlen]
    cases hv1 : getAttr st f1 with
    | none =>
        cases hv2 : getAttr st f2 with
        | none => rfl
        | some v2 => rfl
    | some v1 =>
        cases hv2 : getAttr st f2 with
        | none => rfl
        | some v2 => cases v1 <;> cases v2 <;> rfl
  · intro st attr rule
    simp only [applyCalcRulesList]
    cases caluculate_field st attr rule <;> rfl
  · intro st attr rule
    simp only [applyCalcRulesListInvst]
    by_cases hs : (getAttr st attr).isSome
    · rw [if_pos hs, if_pos hs]
      cases caluculate_field st attr rule <;> rfl
    · rw [if_neg hs, if_neg hs]
      rfl

theorem exceptBind_error {α β : Type} (e : PyErr) (f : α → Except PyErr β) :
    ((Except.error e : Except PyErr α) >>= f) = .error e := rfl

/-! ### Claim C4 — the quantity gate -/

/-- C4 (counterexample): the claim promises that fractional quantity text
leaves the field absent *with no error*; the code's `int(row[map.quantity])`
guard raises `ValueError` on `2.5`, failing record construction. -/
theorem quantity_fractional_raises_counterexample :
    extractQuantity ["2.5"] { quantity := some 0 } = .error .valueError
    ∧ InvstRecord_init ["2.5"]
        { accountType := .str "Invst", quantity := some 0 } "" =
        .error .valueError := by
  refine ⟨rfl, rfl⟩

/-- C4 (amended): for a bound, in-range quantity cell, extraction behaves
as follows — empty text leaves the field absent with no error; non-empty
text that fails the integer parse raises that parse's error out of the
constructor; an integer parse that is zero or negative leaves the field
absent with no error; a positive integer parse stores the `locale.atof`
value of the currency-stripped cell. -/
theorem quantity_gate_characterization
    (row : Row) (cm : ColumnMap) (i : ℕ) (cell : String)
    (hb : cm.quantity = some i) (hc : row.get? i = some cell) :
    (cell = "" → extractQuantity row cm = .ok none)
  ∧ (∀ e, pyIntParse cell = .error e → cell ≠ "" → extractQuantity row cm = .error e)
  ∧ (∀ n : ℤ, pyIntParse cell = .ok n → n ≤ 0 → cell ≠ "" →
      extractQuantity row cm = .ok none)
  ∧ (∀ n : ℤ, pyIntParse cell = .ok n → 0 < n → cell ≠ "" →
      extractQuantity row cm =
        (pyAtof (pyStrip cell cm.CurrencySymbol)).map (fun q => some (PyVal.num q))) := by
  have hrow : row.isEmpty = false := by
    cases row with
    | nil => simp at hc
    | cons a t => rfl
  have hcell : cellAt row i = .ok cell := by
    simp only [cellAt]
    rw [hc]
  refine ⟨?_, ?_, ?_, ?_⟩
  · intro he
    simp [extractQuantity, hrow, hb, hcell, he, exceptBind_ok]
  · intro e hp hne
    simp [extractQuantity, hrow, hb, hcell, hne, hp, exceptBind_ok, exceptBind_error]
  · intro n hp hn hne
    simp [extractQuantity, hrow, hb, hcell, hne, hp, exceptBind_ok, not_lt.mpr hn]
  · intro n hp hn hne
    simp only [extractQuantity, hrow, Bool.false_eq_true, if_false, hb, hcell,
      exceptBind_ok, if_neg hne, hp, if_pos hn]
    cases pyAtof (pyStrip cell cm.CurrencySymbol) <;> rfl

/-- C4 (witness): the amended characterization applied to the cell `-3`
(an integer parse that is negative): the field is left absent, no error. -/
theorem quantity_gate_characterization_witness :
    extractQuantity ["-3"] { quantity := some 0 } = .ok none := by
  have h := quantity_gate_characterization ["-3"] { quantity := some 0 } 0 "-3" rfl rfl
  exact h.2.2.1 (-3) rfl (by decide) (by decide)

/-! ### Claim C9 — the `cleard` misspelling -/

/-- A transaction pass containing any row whose record construction raises
produces no output at all: the exception is caught after the loop and the
buffer is never flushed. -/
theorem txScanAux_error (cm : ColumnMap) (pr : String) :
    ∀ (rows : List Row) (buf : String) (len : ℕ),
      (∃ r ∈ rows, ∃ e, txRecordInit r cm pr = .error e) →
      txScanAux cm pr rows buf len = "" := by
  intro rows
  induction rows with
  | nil =>
      rintro buf len ⟨r, hr, _⟩
      cases hr
  | cons a t ih =>
      rintro buf len ⟨r, hr, e, he⟩
      rcases List.mem_cons.mp hr with h | h
      · subst h
        simp [txScanAux, he]
      · cases hinit : txRecordInit a cm pr with
        | error e2 => simp [txScanAux, hinit]
        | ok st =>
            by_cases hlen : len = 0
            · simp only [txScanAux, hinit, if_pos hlen]
              cases hh : typeHeader cm with
              | error e3 => rfl
              | ok hdr => exact ih _ _ ⟨r, h, e, he⟩
            · simp only [txScanAux, hinit, if_neg hlen]
              exact ih _ _ ⟨r, h, e, he⟩

/-- C9: when the document binds `cleared` (and, as in any document written
against the documented schema, has no `cleard` key) and the row's cleared
cell is non-empty, the value expression `row[map.cleard]` raises
`AttributeError`: the cleared extraction fails, the whole record
construction fails with that error (provided the earlier fields extracted
without error), and the enclosing Investment transaction pass reaches its
error branch and emits nothing. -/
theorem cleared_misspelling_attribute_error
    (row : Row) (cm : ColumnMap) (pr : String) (i : ℕ) (cell : String)
    (l : List (String × Option PyVal))
    (hb : cm.cleared = some i) (hc : row.get? i = some cell) (hne : cell ≠ "")
    (hmiss : cm.cleard = none)
    (hpre : invstExtractPre row cm pr = .ok l) :
    extractCleared row cm = .error .attrError
  ∧ InvstRecord_init row cm pr = .error .attrError
  ∧ (cm.accountType = PyVal.str "Invst" →
      ∀ rows : List Row, row ∈ rows.drop (cm.StartLine - 1) →
        transactionSection rows cm pr = "") := by
  have hrow : row.isEmpty = false := by
    cases row with
    | nil => simp at hc
    | cons a t => rfl
  have hcell : cellAt row i = .ok cell := by
    simp only [cellAt]
    rw [hc]
  have h1 : extractCleared row cm = .error .attrError := by
    simp [extractCleared, hrow, hb, hcell, hne, hmiss, exceptBind_ok]
  have h2 : InvstRecord_init row cm pr = .error .attrError := by
    simp [InvstRecord_init, hpre, h1, exceptBind_ok, exceptBind_error]
  refine ⟨h1, h2, ?_⟩
  intro htype rows hmem
  have hterr : txRecordInit row cm pr = .error .attrError := by
    simp [txRecordInit, htype, h2]
  exact txScanAux_error cm pr _ "" 0 ⟨row, hmem, .attrError, hterr⟩

/-- C9 (witness): a concrete document binding only `cleared` (column 0) on
a one-cell row. -/
theorem cleared_misspelling_attribute_error_witness :
    extractCleared ["R"] { accountType := .str "Invst", cleared := some 0 } =
      .error .attrError
  ∧ InvstRecord_init ["R"] { accountType := .str "Invst", cleared := some 0 } "" =
      .error .attrError
  ∧ transactionSection [["R"]] { accountType := .str "Invst", cleared := some 0 } "" =
      "" := by
  have h := cleared_misspelling_attribute_error ["R"]
    { accountType := .str "Invst", cleared := some 0 } "" 0 "R"
    [("date_in", none), ("date", none), ("security", none), ("memo", none),
     ("action", none), ("price", none), ("quantity", none)]
    rfl rfl (by decide) rfl rfl
  exact ⟨h.1, h.2.1, h.2.2 rfl [["R"]] (by simp)⟩

/-! ### Claim C10 — price extraction takes the absolute value -/

theorem pyAbs_nonneg (q : ℚ) : 0 ≤ pyAbs q := by
  unfold pyAbs
  split
  · linarith
  · linarith

theorem extractPrice_abs (row : Row) (cm : ColumnMap) (i : ℕ) (cell : String)
    (q : ℚ) (hb : cm.price = some i) (hc : row.get? i = some cell)
    (hne : cell ≠ "") (hq : pyAtof (pyStrip cell cm.CurrencySymbol) = .ok q) :
    extractPrice row cm = .ok (some (.num (pyAbs q))) := by
  have hrow : row.isEmpty = false := by
    cases row with
    | nil => simp at hc
    | cons a t => rfl
  have hcell : cellAt row i = .ok cell := by
    simp only [cellAt]
    rw [hc]
  simp [extractPrice, hrow, hb, hcell, hne, hq, exceptBind_ok]

/-- Reading the `price` entry out of the assembled pre-`cleared` extraction
list: the keys before it are all different from `price`. -/
theorem lookupOpt_invstExtractPre (row : Row) (cm : ColumnMap) (pr : String)
    (l : List (String × Option PyVal)) (pv : Option PyVal)
    (hpre : invstExtractPre row cm pr = .ok l)
    (hpx : extractPrice row cm = .ok pv) :
    lookupOpt l "price" = pv := by
  unfold invstExtractPre at hpre
  cases h1 : extractDateIn row cm with
  | error e => simp [h1, exceptBind_error] at hpre
  | ok dIn =>
  rw [h1, exceptBind_ok] at hpre
  cases h2 : extractStr row cm.security with
  | error e => simp [h2, exceptBind_error] at hpre
  | ok sec =>
  rw [h2, exceptBind_ok] at hpre
  cases h3 : extractStr row cm.memo with
  | error e => simp [h3, exceptBind_error] at hpre
  | ok memo =>
  rw [h3, exceptBind_ok] at hpre
  cases h4 : extractStr row cm.action with
  | error e => simp [h4, exceptBind_error] at hpre
  | ok act0 =>
  rw [h4, exceptBind_ok] at hpre
  cases h5 : extractPrice row cm with
  | error e => simp [h5, exceptBind_error] at hpre
  | ok pv0 =>
  rw [h5, exceptBind_ok] at hpre
  cases h6 : extractQuantity row cm with
  | error e => simp [h6, exceptBind_error] at hpre
  | ok qv =>
  rw [h6, exceptBind_ok] at hpre
  have hl : l = [("date_in", dIn.map (fun d => PyVal.num (d : ℚ))),
      ("date", dIn.map (fun d => PyVal.str (pyStrftime d cm.QifTimeFormat))),
      ("security", sec), ("memo", memo),
      ("action", translateAction cm pr act0), ("price", pv0), ("quantity", qv)] := by
    cases hpre
    rfl
  have hpv : pv0 = pv := by
    rw [h5] at hpx
    cases hpx
    rfl
  subst hl
  subst hpv
  cases pv0 <;> simp [lookupOpt]

/-- C10 (counterexample): the claim that the price field of an Investment
record is never negative fails once rule evaluation runs: an `InvertRules`
entry targeting `price` negates the extracted absolute value. -/
theorem price_invert_negative_counterexample :
    (InvstRecord_init ["2"]
        { accountType := .str "Invst", price := some 0,
          InvertRules := some [("price", RCond.tt)] } "").map
      (fun st => getAttr st "price") = .ok (some (PyVal.num (-2)))
    ∧ (-2 : ℚ) < 0 := by
  refine ⟨rfl, by decide⟩

/-- C10 (amended): for a bound, in-range, non-empty price cell whose text
parses, the *extracted* price is the absolute value of the parsed number —
never negative — and when no calculation, translation, or inversion rule
targets `price`, the finished record's price field still holds exactly
that absolute value. -/
theorem price_absolute_at_extraction
    (row : Row) (cm : ColumnMap) (pr : String) (i : ℕ) (cell : String)
    (q : ℚ) (st : RecState)
    (hb : cm.price = some i) (hc : row.get? i = some cell) (hne : cell ≠ "")
    (hq : pyAtof (pyStrip cell cm.CurrencySymbol) = .ok q)
    (hcr : ∀ p ∈ cm.CalculationRules.getD [], p.1 ≠ "price")
    (htr : ∀ p ∈ cm.Translations.getD [], p.1 ≠ "price")
    (hir : ∀ p ∈ cm.InvertRules.getD [], p.1 ≠ "price")
    (hinit : InvstRecord_init row cm pr = .ok st) :
    extractPrice row cm = .ok (some (PyVal.num (pyAbs q)))
    ∧ getAttr st "price" = some (PyVal.num (pyAbs q)) ∧ 0 ≤ pyAbs q := by
  have hpx : extractPrice row cm = .ok (some (.num (pyAbs q))) :=
    extractPrice_abs row cm i cell q hb hc hne hq
  refine ⟨hpx, ?_, pyAbs_nonneg q⟩
  cases hpre : invstExtractPre row cm pr with
  | error e => simp [InvstRecord_init, hpre, exceptBind_error] at hinit
  | ok l =>
  cases hcl : extractCleared row cm with
  | error e => simp [InvstRecord_init, hpre, hcl, exceptBind_ok, exceptBind_error] at hinit
  | ok cl =>
  cases hpost : invstExtractPost row cm with
  | error e =>
      simp [InvstRecord_init, hpre, hcl, hpost, exceptBind_ok, exceptBind_error] at hinit
  | ok lpost =>
  simp only [InvstRecord_init, hpre, hcl, hpost, exceptBind_ok] at hinit
  have h0 : getAttr (mkState (l ++ [("cleared", cl)] ++ lpost)) "price" =
      some (PyVal.num (pyAbs q)) := by
    rw [getAttr_mkState]
    exact lookupOpt_append_left _ _ _ _
      (lookupOpt_append_left _ _ _ _
        (lookupOpt_invstExtractPre row cm pr l _ hpre hpx))
  cases hcalc : applyCalcRulesInvst cm (mkState (l ++ [("cleared", cl)] ++ lpost)) with
  | error e => rw [hcalc, exceptBind_error] at hinit; cases hinit
  | ok st1 =>
  rw [hcalc, exceptBind_ok] at hinit
  have h1 : getAttr st1 "price" = some (PyVal.num (pyAbs q)) := by
    rw [← h0]
    unfold applyCalcRulesInvst at hcalc
    cases hcr0 : cm.CalculationRules with
    | none => rw [hcr0] at hcalc; cases hcalc; rfl
    | some rules =>
        rw [hcr0] at hcalc
        exact getAttr_applyCalcRulesListInvst_ne "price" rules
          (by simpa [hcr0] using hcr) _ st1 hcalc
  have h2 : getAttr (applyTranslations invstFields cm st1) "price" =
      some (PyVal.num (pyAbs q)) := by
    rw [← h1]
    unfold applyTranslations
    cases htr0 : cm.Translations with
    | none => rfl
    | some rules =>
        exact getAttr_applyTransList_ne invstFields "price" rules
          (by simpa [htr0] using htr) st1
  rw [← h2]
  unfold applyInvertRules at hinit
  cases hir0 : cm.InvertRules with
  | none => rw [hir0] at hinit; cases hinit; rfl
  | some rules =>
      rw [hir0] at hinit
      exact getAttr_applyInvertList_ne "price" rules
        (by simpa [hir0] using hir) _ st hinit

/-- C10 (witness): a concrete Investment row with a bare price column and
no rule tables. -/
theorem price_absolute_at_extraction_witness :
    extractPrice ["2"] { accountType := .str "Invst", price := some 0 } =
      .ok (some (PyVal.num (pyAbs (2 : ℚ))))
    ∧ getAttr [("price", PyVal.num 2), ("Multiplier", PyVal.num 1)] "price" =
        some (PyVal.num (pyAbs (2 : ℚ)))
    ∧ 0 ≤ pyAbs (2 : ℚ) := by
  have h := price_absolute_at_extraction ["2"]
    { accountType := .str "Invst", price := some 0 } "" 0 "2" 2
    [("price", PyVal.num 2), ("Multiplier", PyVal.num 1)]
    rfl rfl (by decide) rfl (by simp) (by simp) (by simp) rfl
  exact h

/-! ### Claim C1 — the balance watermark -/

theorem listMaxZ_cons (d : ℤ) (ds : List ℤ) :
    listMaxZ (d :: ds) = some ((listMaxZ ds).elim d (max d)) := by
  cases hds : listMaxZ ds <;> simp [listMaxZ, hds]

theorem listMaxZ_head_le (d : ℤ) (ds : List ℤ) (m : ℤ)
    (h : listMaxZ (d :: ds) = some m) : d ≤ m := by
  rw [listMaxZ_cons] at h
  cases hds : listMaxZ ds with
  | none => rw [hds] at h; simp at h; omega
  | some m0 =>
      rw [hds] at h
      simp only [Option.elim] at h
      cases h
      exact le_max_left d m0

theorem specWF_congr {x y : List (ℤ × PyVal)}
    (h : specWatermarkPair x = specWatermarkPair y) :
    specWatermarkFirst x = specWatermarkFirst y := by
  unfold specWatermarkFirst
  rw [h]

/-- Prepending a strictly earlier-dated pair does not change the
watermark. -/
theorem specWMP_cons_lt (l t : ℤ) (b c : PyVal) (ps : List (ℤ × PyVal))
    (h : l < t) :
    specWatermarkPair ((l, b) :: (t, c) :: ps) =
      specWatermarkPair ((t, c) :: ps) := by
  obtain ⟨M, hM⟩ : ∃ M, listMaxZ (t :: ps.map (fun p => p.1)) = some M := by
    rw [listMaxZ_cons]
    exact ⟨_, rfl⟩
  have htM : t ≤ M := listMaxZ_head_le t _ M hM
  have hlM : l < M := lt_of_lt_of_le h htM
  have hLHS : listMaxZ (l :: t :: ps.map (fun p => p.1)) = some (max l M) := by
    rw [listMaxZ_cons, hM]
    rfl
  simp only [specWatermarkPair, List.map_cons, hM, hLHS,
    max_eq_right (le_of_lt hlM)]
  rw [List.find?_cons_of_neg]
  simp only [decide_eq_true_eq]
  exact ne_of_lt hlM

/-- Prepending a pair dated no earlier than a later entry makes the later
entry irrelevant (the first row attaining the maximum wins). -/
theorem specWMP_cons_ge (l t : ℤ) (b c : PyVal) (ps : List (ℤ × PyVal))
    (h : t ≤ l) :
    specWatermarkPair ((l, b) :: (t, c) :: ps) =
      specWatermarkPair ((l, b) :: ps) := by
  cases hds : listMaxZ (ps.map (fun p => p.1)) with
  | none =>
      have h1 : listMaxZ (l :: t :: ps.map (fun p => p.1)) = some (max l t) := by
        rw [listMaxZ_cons, listMaxZ_cons, hds]
        rfl
      have h2 : listMaxZ (l :: ps.map (fun p => p.1)) = some l := by
        rw [listMaxZ_cons, hds]
        rfl
      simp only [specWatermarkPair, List.map_cons, h1, h2, max_eq_left h]
      rw [List.find?_cons_of_pos, List.find?_cons_of_pos] <;> simp
  | some m =>
      have h1 : listMaxZ (l :: t :: ps.map (fun p => p.1)) =
          some (max l (max t m)) := by
        rw [listMaxZ_cons, listMaxZ_cons, hds]
        rfl
      have h2 : listMaxZ (l :: ps.map (fun p => p.1)) = some (max l m) := by
        rw [listMaxZ_cons, hds]
        rfl
      have hmx : max l (max t m) = max l m := by
        rw [← max_assoc, max_eq_left h]
      simp only [specWatermarkPair, List.map_cons, h1, h2, hmx]
      by_cases hl : l = max l m
      · rw [List.find?_cons_of_pos, List.find?_cons_of_pos] <;> simp [← hl]
      · have hlm : l < max l m := lt_of_le_of_ne (le_max_left l m) hl
        have ht : t ≠ max l m := fun he => hl (le_antisymm (le_max_left l m)
          (by rw [← he] at hlm ⊢; omega))
        rw [List.find?_cons_of_neg, List.find?_cons_of_neg, List.find?_cons_of_neg]
        · simp only [decide_eq_true_eq]
          exact hl
        · simp only [decide_eq_true_eq]
          exact ht
        · simp only [decide_eq_true_eq]
          exact hl

/-- The watermark scan of the account pass computes exactly the
specification-side watermark (first row attaining the latest date),
provided no row of the scan raises. -/
theorem accScan_eq_spec (cm : ColumnMap) :
    ∀ rows : List Row, (∀ r ∈ rows, accRowOk cm r = true) →
      (∀ (l : ℤ) (b : PyVal),
          accScan cm rows (some l) (some b) =
            specWatermarkFirst ((l, b) :: rows.filterMap (balPairOf cm)))
      ∧ accScan cm rows none none =
          specWatermarkFirst (rows.filterMap (balPairOf cm)) := by
  intro rows
  induction rows with
  | nil =>
      intro _
      constructor
      · intro l b
        simp only [accScan, List.filterMap_nil, specWatermarkFirst,
          specWatermarkPair, List.map_cons, List.map_nil, listMaxZ]
        rw [List.find?_cons_of_pos]
        · rfl
        · simp
      · rfl
  | cons r rs ih =>
      intro hok
      have hr : accRowOk cm r = true := hok r (List.mem_cons_self _ _)
      have hrs : ∀ x ∈ rs, accRowOk cm x = true :=
        fun x hx => hok x (List.mem_cons_of_mem _ hx)
      have IH := ih hrs
      cases hbr : BankRecord_init r cm with
      | error e => simp [accRowOk, hbr] at hr
      | ok st =>
          cases hd : getAttr st "date" with
          | none =>
              have hpair : balPairOf cm r = none := by
                simp only [balPairOf, hbr, hd]
              constructor
              · intro l b
                simp only [accScan, hbr, hd, List.filterMap_cons, hpair]
                exact IH.1 l b
              · simp only [accScan, hbr, hd, List.filterMap_cons, hpair]
                exact IH.2
          | some dv =>
              cases hb2 : getAttr st "balance" with
              | none =>
                  have hpair : balPairOf cm r = none := by
                    simp only [balPairOf, hbr, hd, hb2]
                  constructor
                  · intro l b
                    simp only [accScan, hbr, hd, hb2, List.filterMap_cons, hpair]
                    exact IH.1 l b
                  · simp only [accScan, hbr, hd, hb2, List.filterMap_cons, hpair]
                    exact IH.2
              | some bv =>
                  cases hvs : valueStrptime dv cm.QifTimeFormat with
                  | error e => simp [accRowOk, hbr, hd, hb2, hvs] at hr
                  | ok t =>
                      have hpair : balPairOf cm r = some (t, bv) := by
                        simp only [balPairOf, hbr, hd, hb2, hvs]
                      constructor
                      · intro l b
                        simp only [accScan, hbr, hd, hb2, hvs,
                          List.filterMap_cons, hpair]
                        by_cases hlt : l < t
                        · have hL : laterThan t (some l) = true := by
                            simp [laterThan, hlt]
                          rw [if_pos hL, IH.1 t bv]
                          exact (specWF_congr (specWMP_cons_lt l t b bv _ hlt)).symm
                        · have hL : laterThan t (some l) = false := by
                            simp only [laterThan, decide_eq_false_iff_not]
                            omega
                          rw [if_neg (by simp [hL]), IH.1 l b]
                          exact (specWF_congr
                            (specWMP_cons_ge l t b bv _ (by omega))).symm
                      · simp only [accScan, hbr, hd, hb2, hvs,
                          List.filterMap_cons, hpair]
                        rw [if_pos (show laterThan t none = true from rfl)]
                        exact IH.1 t bv

/-- C1 (counterexample): two rows share the latest date `5` with balances
`10` then `20`; the claim (ties broken by last-seen) demands `20`, but the
strict `rec_time > latestDate` comparison keeps the first-seen balance
`10`. -/
theorem accountBalance_tie_counterexample :
    accountPassBalance [["5", "10"], ["5", "20"]]
      { account := some (.str "A"), date := some 0, balance := some 1,
        CsvTimeFormat := "f" } = some (PyVal.num 10)
    ∧ PyVal.num 10 ≠ PyVal.num 20 := by
  refine ⟨rfl, by decide⟩

/-- C1 (amended): after a scan in which every row processes without
raising, the account balance equals the balance of the transaction whose
reformatted date is chronologically latest, ties broken by *first*-seen
(the code updates the watermark only on a strictly later date). -/
theorem accountBalance_watermark_first_seen
    (rows : List Row) (cm : ColumnMap)
    (h : ∀ r ∈ rows.drop (cm.StartLine - 1), accRowOk cm r = true) :
    accountPassBalance rows cm =
      specWatermarkFirst ((rows.drop (cm.StartLine - 1)).filterMap (balPairOf cm)) :=
  (accScan_eq_spec cm _ h).2

/-- C1 (witness): the specification's own example — dates `[5, 31, 20]`
with balances `[10, 30, 20]` select `30`. -/
theorem accountBalance_watermark_first_seen_witness :
    accountPassBalance [["5", "10"], ["31", "30"], ["20", "20"]]
      { account := some (.str "A"), date := some 0, balance := some 1,
        CsvTimeFormat := "f" } = some (PyVal.num 30) := by
  have h := accountBalance_watermark_first_seen
    [["5", "10"], ["31", "30"], ["20", "20"]]
    { account := some (.str "A"), date := some 0, balance := some 1,
      CsvTimeFormat := "f" } (by decide)
  exact h.trans (by decide)

/-! ### Claim C6 — security de-duplication -/

/-- Whether a record construction succeeded (the pass's `try` succeeded on
this row). -/
def isOkE : Except PyErr RecState → Bool
  | .ok _ => true
  | .error _ => false

/-- A line is emitted for every present field of the kind's field list, so
the formatted lines are non-empty whenever some listed field is present. -/
theorem formatLines_ne_empty (st : RecState) :
    ∀ (fs is : List String) (f : String) (v : PyVal), f ∈ fs →
      fs.length = is.length → getAttr st f = some v →
      formatLines st fs is ≠ "" := by
  intro fs
  induction fs with
  | nil =>
      intro is f v hmem _ _
      cases hmem
  | cons f1 fs' ih =>
      intro is f v hmem hlen hval
      cases is with
      | nil => cases hlen
      | cons i1 is' =>
          rcases List.mem_cons.mp hmem with hf | hf
          · subst hf
            simp only [formatLines, hval]
            exact str_append_ne_empty_left _ _
              (str_append_ne_empty_right _ _ (by decide))
          · simp only [formatLines]
            exact str_append_ne_empty_right _ _
              (ih is' f v hf (by simpa using hlen) hval)

/-- A security record with a `type` attribute always formats to a
non-`None` body ending in the record terminator. -/
theorem secFormat_of_type (st : RecState)
    (h : (getAttr st "type").isSome = true) :
    ∃ p, secFormat st = some (p ++ "^\n") := by
  obtain ⟨v, hv⟩ := Option.isSome_iff_exists.mp h
  have hr : formatLines st secFields secIds ≠ "" :=
    formatLines_ne_empty st secFields secIds "type" v (by decide) (by decide) hv
  refine ⟨formatLines st secFields secIds, ?_⟩
  simp only [secFormat, if_neg hr]

/-- The `sec_list` accumulator of the security scan collects exactly the
first occurrences (relative to what it already holds) of the qualifying
rows' symbols, in row order, provided no row of the scan raises. -/
theorem secScanAux_seen (cm : ColumnMap) :
    ∀ (rows : List Row) (seen : List (Option PyVal)) (buf : String) (len : ℕ),
      (∀ r ∈ rows, isOkE (SecurityRecord_init r cm) = true) →
      (secScanAux cm rows seen buf len).2 =
        seen ++ specFirstOccurrencesFrom seen (qualSymbols cm rows) := by
  intro rows
  induction rows with
  | nil =>
      intro seen buf len _
      simp [secScanAux, qualSymbols, specFirstOccurrencesFrom]
  | cons r rs ih =>
      intro seen buf len hok
      have hr : isOkE (SecurityRecord_init r cm) = true :=
        hok r (List.mem_cons_self _ _)
      have hrs : ∀ x ∈ rs, isOkE (SecurityRecord_init x cm) = true :=
        fun x hx => hok x (List.mem_cons_of_mem _ hx)
      cases hinit : SecurityRecord_init r cm with
      | error e => simp [isOkE, hinit] at hr
      | ok st =>
          by_cases hty : (getAttr st "type").isSome = true
          · by_cases hmem : getAttr st "symbol" ∈ seen
            · simp only [secScanAux, hinit, hty, if_true, if_pos hmem]
              rw [ih seen buf len hrs]
              simp only [qualSymbols, List.filterMap_cons, hinit, hty, if_true,
                specFirstOccurrencesFrom, if_pos hmem]
            · obtain ⟨p, hfmt⟩ := secFormat_of_type st hty
              simp only [secScanAux, hinit, hty, if_true, if_neg hmem, hfmt]
              rw [ih _ _ _ hrs]
              simp only [qualSymbols, List.filterMap_cons, hinit, hty, if_true,
                specFirstOccurrencesFrom, if_neg hmem]
              rw [List.append_assoc]
              rfl
          · have hty' : (getAttr st "type").isSome = false := by
              simp only [Bool.not_eq_true] at hty
              exact hty
            simp only [secScanAux, hinit, hty', Bool.false_eq_true, if_false]
            rw [ih seen buf len hrs]
            simp only [qualSymbols, List.filterMap_cons, hinit, hty',
              Bool.false_eq_true, if_false]

/-- C6: the security pass emits each distinct symbol at most once, in the
order of its first qualifying occurrence: the collected `sec_list` (whose
entries correspond one-to-one, in order, with the emitted Security record
bodies) equals the first-seen de-duplication of the qualifying symbol
stream. -/
theorem security_dedup_first_seen (rows : List Row) (cm : ColumnMap)
    (h : ∀ r ∈ rows, isOkE (SecurityRecord_init r cm) = true) :
    (secScanAux cm rows [] "" 0).2 =
      specFirstOccurrences (qualSymbols cm rows) := by
  have hs := secScanAux_seen cm rows [] "" 0 h
  simpa [specFirstOccurrences] using hs

/-- C6 (witness): rows with symbols `[X, Y, X, Z, Y]`, all of type `Stock`,
produce exactly `[X, Y, Z]`, once each, in that order. -/
theorem security_dedup_first_seen_witness :
    (secScanAux { accountType := .str "Invst", type := some 1, symbol := some 0 }
        [["X", "Stock"], ["Y", "Stock"], ["X", "Stock"], ["Z", "Stock"],
         ["Y", "Stock"]] [] "" 0).2 =
      [some (PyVal.str "X"), some (PyVal.str "Y"), some (PyVal.str "Z")] := by
  have h := security_dedup_first_seen
    [["X", "Stock"], ["Y", "Stock"], ["X", "Stock"], ["Z", "Stock"],
     ["Y", "Stock"]]
    { accountType := .str "Invst", type := some 1, symbol := some 0 }
    (by decide)
  exact h.trans (by decide)

/-! ### Claim C5 — no orphaned section headers -/

/-- A formatted record body: some field lines followed by the `^`
terminator. -/
def isRecordBody (b : String) : Prop := ∃ p, b = p ++ "^\n"

/-- A section written to the sink is either empty or a single header
followed immediately by at least one record body. -/
def sectionShape (hdr out : String) : Prop :=
  out = "" ∨ ∃ bodies, bodies ≠ [] ∧ (∀ b ∈ bodies, isRecordBody b) ∧
    out = hdr ++ concatBodies bodies

/-- The transaction section's shape: empty, or the `!Type:` header built
from the (string) account type followed by at least one record body. -/
def txShape (cm : ColumnMap) (out : String) : Prop :=
  out = "" ∨ ∃ s bodies, cm.accountType = PyVal.str s ∧ bodies ≠ [] ∧
    (∀ b ∈ bodies, isRecordBody b) ∧
    out = "!Type:" ++ s ++ "\n" ++ concatBodies bodies

theorem str_length_append (a b : String) :
    (a ++ b).length = a.length + b.length := by
  cases a with
  | mk la =>
  cases b with
  | mk lb =>
  show (la ++ lb).length = la.length + lb.length
  exact List.length_append la lb

theorem recordBody_length_pos (p : String) : 0 < (p ++ "^\n").length := by
  rw [str_length_append]
  have h2 : ("^\n").length = 2 := rfl
  omega

theorem txFormat_isRecordBody (cm : ColumnMap) (st : RecState) :
    isRecordBody (txFormat cm st) := by
  unfold txFormat
  split
  · exact ⟨_, rfl⟩
  · exact ⟨_, rfl⟩

theorem secFormat_isRecordBody (st : RecState) (body : String)
    (h : secFormat st = some body) : isRecordBody body := by
  simp only [secFormat] at h
  split at h
  · cases h
  · cases h
    exact ⟨_, rfl⟩

theorem secScanAux_shape (cm : ColumnMap) :
    ∀ (rows : List Row) (seen : List (Option PyVal)) (buf : String) (len : ℕ),
      (len = 0 → buf = "") →
      (0 < len → ∃ bodies, bodies ≠ [] ∧ (∀ b ∈ bodies, isRecordBody b) ∧
          buf = "!Type:Security\n" ++ concatBodies bodies) →
      sectionShape "!Type:Security\n" (secScanAux cm rows seen buf len).1 := by
  intro rows
  induction rows with
  | nil =>
      intro seen buf len h1 h2
      simp only [secScanAux]
      by_cases hl : 0 < len
      · rw [if_pos hl]
        exact Or.inr (h2 hl)
      · rw [if_neg hl]
        exact Or.inl rfl
  | cons r rs ih =>
      intro seen buf len h1 h2
      cases hinit : SecurityRecord_init r cm with
      | error e =>
          simp only [secScanAux, hinit]
          exact Or.inl rfl
      | ok st =>
          by_cases hty : (getAttr st "type").isSome = true
          · by_cases hmem : getAttr st "symbol" ∈ seen
            · simp only [secScanAux, hinit, hty, if_true, if_pos hmem]
              exact ih seen buf len h1 h2
            · cases hfmt : secFormat st with
              | none =>
                  simp only [secScanAux, hinit, hty, if_true, if_neg hmem, hfmt]
                  exact Or.inl rfl
              | some body =>
                  obtain ⟨p, hp⟩ := secFormat_isRecordBody st body hfmt
                  simp only [secScanAux, hinit, hty, if_true, if_neg hmem, hfmt]
                  by_cases hlen : len = 0
                  · rw [if_pos hlen]
                    apply ih
                    · intro habs
                      exfalso
                      have := recordBody_length_pos p
                      rw [← hp] at this
                      omega
                    · intro _
                      refine ⟨[body], by simp, ?_, ?_⟩
                      · intro b hb
                        rw [List.mem_singleton] at hb
                        rw [hb, hp]
                        exact ⟨p, rfl⟩
                      · rw [h1 hlen, str_empty_append, concatBodies,
                          concatBodies, str_append_empty]
                  · rw [if_neg hlen]
                    have hpos : 0 < len := by omega
                    obtain ⟨bodies, hne, hall, hbuf⟩ := h2 hpos
                    apply ih
                    · intro habs
                      exfalso
                      have := recordBody_length_pos p
                      rw [← hp] at this
                      omega
                    · intro _
                      refine ⟨bodies ++ [body], by simp [hne], ?_, ?_⟩
                      · intro b hb
                        rcases List.mem_append.mp hb with hb | hb
                        · exact hall b hb
                        · rw [List.mem_singleton] at hb
                          rw [hb, hp]
                          exact ⟨p, rfl⟩
                      · rw [hbuf, concatBodies_snoc, str_append_assoc]
          · have hty' : (getAttr st "type").isSome = false := by
              simp only [Bool.not_eq_true] at hty
              exact hty
            simp only [secScanAux, hinit, hty', Bool.false_eq_true, if_false]
            exact ih seen buf len h1 h2

theorem txScanAux_shape (cm : ColumnMap) (pr : String) :
    ∀ (rows : List Row) (buf : String) (len : ℕ),
      (len = 0 → buf = "") →
      (0 < len → ∃ s bodies, cm.accountType = PyVal.str s ∧ bodies ≠ [] ∧
          (∀ b ∈ bodies, isRecordBody b) ∧
          buf = "!Type:" ++ s ++ "\n" ++ concatBodies bodies) →
      txShape cm (txScanAux cm pr rows buf len) := by
  intro rows
  induction rows with
  | nil =>
      intro buf len h1 h2
      simp only [txScanAux]
      by_cases hl : 0 < len
      · exact Or.inr (h2 hl)
      · have : len = 0 := by omega
        rw [h1 this]
        exact Or.inl rfl
  | cons r rs ih =>
      intro buf len h1 h2
      cases hinit : txRecordInit r cm pr with
      | error e =>
          simp only [txScanAux, hinit]
          exact Or.inl rfl
      | ok st =>
          obtain ⟨p, hp⟩ := txFormat_isRecordBody cm st
          by_cases hlen : len = 0
          · cases hat : cm.accountType with
            | num q =>
                simp only [txScanAux, hinit, if_pos hlen, typeHeader, hat]
                exact Or.inl rfl
            | str s =>
                simp only [txScanAux, hinit, if_pos hlen, typeHeader, hat]
                apply ih
                · intro habs
                  exfalso
                  have := recordBody_length_pos p
                  rw [← hp] at this
                  omega
                · intro _
                  refine ⟨s, [txFormat cm st], hat, by simp, ?_, ?_⟩
                  · intro b hb
                    rw [List.mem_singleton] at hb
                    rw [hb]
                    exact ⟨p, hp⟩
                  · rw [h1 hlen, str_empty_append, concatBodies, concatBodies,
                      str_append_empty]
          · simp only [txScanAux, hinit, if_neg hlen]
            have hpos : 0 < len := by omega
            obtain ⟨s, bodies, hat, hne, hall, hbuf⟩ := h2 hpos
            apply ih
            · intro habs
              exfalso
              have := recordBody_length_pos p
              rw [← hp] at this
              omega
            · intro _
              refine ⟨s, bodies ++ [txFormat cm st], hat, by simp [hne], ?_, ?_⟩
              · intro b hb
                rcases List.mem_append.mp hb with hb | hb
                · exact hall b hb
                · rw [List.mem_singleton] at hb
                  rw [hb]
                  exact ⟨p, hp⟩
              · rw [hbuf, concatBodies_snoc, str_append_assoc]

theorem AccountRecord_init_account (cm : ColumnMap) (ar : AccountRec)
    (h : AccountRecord_init cm = .ok ar) : ar.account = cm.account := by
  cases htr : cm.taxRate with
  | none =>
      simp only [AccountRecord_init, htr, exceptBind_ok] at h
      cases h
      rfl
  | some v =>
      cases v with
      | str s =>
          cases hq : pyAtof s with
          | error e =>
              simp [AccountRecord_init, htr, hq, exceptBind_error,
                exceptBind_ok] at h
          | ok q =>
              simp only [AccountRecord_init, htr, hq, exceptBind_ok] at h
              cases h
              rfl
      | num q =>
          simp [AccountRecord_init, htr, exceptBind_error] at h

/-- An account record with an account name formats to the `!Account`
header followed by one record body. -/
theorem accountFormat_shape (ar2 : AccountRec)
    (h : ar2.account.isSome = true) :
    sectionShape "!Account\n" (accountFormat ar2) := by
  refine Or.inr ⟨[optLine "N" ar2.account ++ optLine "T" ar2.accountType
    ++ optLine "R" ar2.taxRate ++ optLine "D" ar2.description
    ++ optLine "L" ar2.limit ++ optLine "$" ar2.balance ++ "^\n"],
    by simp, ?_, ?_⟩
  · intro b hb
    rw [List.mem_singleton] at hb
    rw [hb]
    exact ⟨_, rfl⟩
  · unfold accountFormat
    rw [if_pos h]
    simp only [concatBodies, str_append_empty]

/-- C5: in every run, each section of the output is either absent or a
single header followed by at least one record body — a pass that yields
zero records or fails mid-scan contributes no orphaned header.  The output
is exactly the concatenation of the three section strings. -/
theorem section_headers_never_orphaned
    (rows : List Row) (cm : ColumnMap) (pr : String) (out : String)
    (h : readCsv rows cm pr = .ok out) :
    (∃ accS, accountSection rows cm = .ok accS
        ∧ out = accS ++ securitySection rows cm ++ transactionSection rows cm pr
        ∧ sectionShape "!Account\n" accS)
    ∧ sectionShape "!Type:Security\n" (securitySection rows cm)
    ∧ txShape cm (transactionSection rows cm pr) := by
  have hsec : sectionShape "!Type:Security\n" (securitySection rows cm) := by
    unfold securitySection
    split
    · exact secScanAux_shape cm _ [] "" 0 (fun _ => rfl) (fun hc => absurd hc (by omega))
    · exact Or.inl rfl
  have htx : txShape cm (transactionSection rows cm pr) := by
    unfold transactionSection
    exact txScanAux_shape cm pr _ "" 0 (fun _ => rfl) (fun hc => absurd hc (by omega))
  cases hacc : accountSection rows cm with
  | error e => simp [readCsv, hacc, exceptBind_error] at h
  | ok accS =>
      have hout : out = accS ++ securitySection rows cm
          ++ transactionSection rows cm pr := by
        simp only [readCsv, hacc, exceptBind_ok] at h
        cases h
        rfl
      refine ⟨⟨accS, rfl, hout, ?_⟩, hsec, htx⟩
      cases ha : cm.account with
      | none => simp [accountSection, ha] at hacc
      | some av =>
          by_cases htru : pyTruthy av = true
          · simp only [accountSection, ha, if_pos htru] at hacc
            cases hinit : AccountRecord_init cm with
            | error e => simp [hinit, exceptBind_error] at hacc
            | ok ar =>
                simp only [hinit, exceptBind_ok] at hacc
                cases hacc
                apply accountFormat_shape
                split
                · show ar.account.isSome = true
                  rw [AccountRecord_init_account cm ar hinit, ha]
                  rfl
                · rw [AccountRecord_init_account cm ar hinit, ha]
                  rfl
          · simp only [accountSection, ha, if_neg htru] at hacc
            cases hacc
            exact Or.inl rfl

/-- C5 (witness): a one-row Bank run with an account name and no balance
binding: the account section is a header plus its record, the security
section is empty, and the transaction section is a header plus one body. -/
theorem section_headers_never_orphaned_witness :
    (∃ accS, accountSection [["x"]] { account := some (PyVal.str "A") } = .ok accS
        ∧ "!Account\nNA\nTBank\n^\n!Type:Bank\n^\n" =
            accS ++ securitySection [["x"]] { account := some (PyVal.str "A") }
              ++ transactionSection [["x"]] { account := some (PyVal.str "A") } ""
        ∧ sectionShape "!Account\n" accS)
    ∧ sectionShape "!Type:Security\n"
        (securitySection [["x"]] { account := some (PyVal.str "A") })
    ∧ txShape { account := some (PyVal.str "A") }
        (transactionSection [["x"]] { account := some (PyVal.str "A") } "") :=
  section_headers_never_orphaned [["x"]] { account := some (PyVal.str "A") } ""
    "!Account\nNA\nTBank\n^\n!Type:Bank\n^\n" rfl
